import Mathlib

/-! Serializer-code generator of `codegen/object.go`.

A shallow embedding of `Field.WriteJson` / `Field.doWriteJson`, of the helpers they call
(`tpl`, `ucFirst`, `lcFirst`) and of `Object.GetField`, followed by theorems about the
generated fragments and the lookup.

Modelling conventions.

* Go strings are Lean `String`s (sequences of Unicode scalar values); `+` on strings is `++`.
* Go `int` is a 64-bit two's-complement integer: a Lean `Int` with an explicit wrap on `+`.
* A Go panic is the `Except.error` result.
* The constants `modPtr` and `modList`, and the non-ASCII part of the Unicode case tables, are
  declared outside `object.go`; they are the fields of the parameter `Env`.
-/

namespace Codegen

/-! ## Constants declared outside `object.go` -/

/-- The parts the code of `object.go` uses but does not declare: the two modifier tags
`modPtr` (OPTIONAL) and `modList` (LIST), which are string constants of the package, and the
case mappings of `unicode.ToUpper` / `unicode.ToLower` for the runes above `unicode.MaxASCII`. -/
structure Env where
  modPtr : String
  modList : String
  upperTable : Char → Char
  lowerTable : Char → Char

/-! ## Go library functions -/

/-- Wrap an integer into the range of a 64-bit two's-complement Go `int`. -/
def wrapInt (x : Int) : Int :=
  (x + 9223372036854775808) % 18446744073709551616 - 9223372036854775808

/-- Go's `a + b` on `int`. -/
def intAdd (a b : Int) : Int := wrapInt (a + b)

/-- The decimal digit character of a digit value. -/
def digitChar (n : Nat) : Char := Char.ofNat (48 + n % 10)

/-- The digit loop of `strconv.Itoa`: peel decimal digits off `n`, least significant first,
in front of `acc`. The first argument bounds the number of rounds. -/
def natDecimalAux : Nat → Nat → List Char → List Char
  | 0, _, acc => acc
  | fuel + 1, n, acc =>
    if n < 10 then digitChar n :: acc
    else natDecimalAux fuel (n / 10) (digitChar (n % 10) :: acc)

/-- Decimal representation of a natural number, most significant digit first. -/
def natDecimal (n : Nat) : List Char := natDecimalAux (n + 1) n []

/-- Go's `strconv.Itoa`: the decimal text of an integer, with a leading `-` when negative. -/
def Itoa (i : Int) : String :=
  match i with
  | Int.ofNat n => String.mk (natDecimal n)
  | Int.negSucc n => String.mk (Char.ofNat 45 :: natDecimal (n + 1))

/-- Go's `unicode.ToUpper`: the ASCII range is computed directly, the other runes go through
the case table. -/
def unicodeToUpper (env : Env) (r : Char) : Char :=
  if r.toNat ≤ 127 then
    if 97 ≤ r.toNat ∧ r.toNat ≤ 122 then Char.ofNat (r.toNat - 32) else r
  else env.upperTable r

/-- Go's `unicode.ToLower`: the ASCII range is computed directly, the other runes go through
the case table. -/
def unicodeToLower (env : Env) (r : Char) : Char :=
  if r.toNat ≤ 127 then
    if 65 ≤ r.toNat ∧ r.toNat ≤ 90 then Char.ofNat (r.toNat + 32) else r
  else env.lowerTable r

/-! ## A model of `text/template` for field-reference templates -/

/-- Why rendering a template did not produce text. -/
inductive TplFailure where
  /-- The template text does not parse (an action is never closed): `template.Must` panics. -/
  | parsePanic
  /-- The template uses an action other than a plain field reference `{{.name}}`;
  such templates are outside the modelled fragment of `text/template`. -/
  | unmodelled
  deriving DecidableEq, Repr

deriving instance DecidableEq for Except

/-- A parsed template: literal text and field references. -/
inductive Node where
  | text (s : List Char)
  | field (name : List Char)
  deriving DecidableEq, Repr

/-- The state of the template scanner. The accumulators hold the characters read so far, last
character first. -/
inductive LexState where
  /-- Inside literal text. -/
  | inText (acc : List Char)
  /-- Inside literal text, the previous character was a `{` that may open an action. -/
  | textBrace (acc : List Char)
  /-- Inside an action. -/
  | inAction (acc : List Char)
  /-- Inside an action, the previous character was a `}` that may close it. -/
  | actionBrace (acc : List Char)

/-- The left brace. -/
def lbrace : Char := Char.ofNat 123

/-- The right brace. -/
def rbrace : Char := Char.ofNat 125

/-- The characters allowed in a field name: ASCII letters, digits and the underscore. -/
def isIdentChar (c : Char) : Bool :=
  (97 ≤ c.toNat && c.toNat ≤ 122) || (65 ≤ c.toNat && c.toNat ≤ 90) ||
    (48 ≤ c.toNat && c.toNat ≤ 57) || c.toNat = 95

/-- The body of an action that is a plain field reference: a dot followed by a name that does
not start with a digit. -/
def actionField (body : List Char) : Option (List Char) :=
  match body with
  | d :: c :: cs =>
    if d.toNat = 46 ∧ ¬ (48 ≤ c.toNat ∧ c.toNat ≤ 57) ∧ (c :: cs).all isIdentChar then
      some (c :: cs)
    else none
  | _ => none

/-- Split a template into text and actions: an action runs from the first `{{` to the next
`}}`. -/
def scan : List Char → LexState → Except TplFailure (List Node)
  | [], .inText acc => .ok [Node.text acc.reverse]
  | [], .textBrace acc => .ok [Node.text (lbrace :: acc).reverse]
  | [], .inAction _ => .error .parsePanic
  | [], .actionBrace _ => .error .parsePanic
  | c :: rest, .inText acc =>
    if c = lbrace then scan rest (.textBrace acc) else scan rest (.inText (c :: acc))
  | c :: rest, .textBrace acc =>
    if c = lbrace then
      match scan rest (.inAction []) with
      | .ok nodes => .ok (Node.text acc.reverse :: nodes)
      | .error e => .error e
    else scan rest (.inText (c :: lbrace :: acc))
  | c :: rest, .inAction acc =>
    if c = rbrace then scan rest (.actionBrace acc) else scan rest (.inAction (c :: acc))
  | c :: rest, .actionBrace acc =>
    if c = rbrace then
      match actionField acc.reverse with
      | some name =>
        match scan rest (.inText []) with
        | .ok nodes => .ok (Node.field name :: nodes)
        | .error e => .error e
      | none => .error .unmodelled
    else scan rest (.inAction (c :: rbrace :: acc))

/-- Go's `template.New("inline").Parse(tpl)` on the modelled fragment. -/
def parseTemplate (tpl : String) : Except TplFailure (List Node) :=
  scan tpl.data (.inText [])

/-- What `Execute` writes for one node, the data being a map from names to strings: a field
reference prints the value stored under its name, and `<no value>` when the map has no such
key (the default `missingkey` option). -/
def execNode (vars : List (String × String)) : Node → String
  | .text s => String.mk s
  | .field name =>
    match vars.lookup (String.mk name) with
    | some v => v
    | none => "<no value>"

/-- What `Execute` writes for a parsed template. -/
def execNodes (vars : List (String × String)) : List Node → String
  | [] => ""
  | n :: ns => execNode vars n ++ execNodes vars ns

/-- The function `tpl`: parse the template, panic if it does not parse, execute it on `vars`
and return the buffer. -/
def tpl (tpl : String) (vars : List (String × String)) : Except TplFailure String :=
  match parseTemplate tpl with
  | .ok nodes => .ok (execNodes vars nodes)
  | .error e => .error e

/-! ## `ucFirst` and `lcFirst` -/

/-- The function `ucFirst`: upper-case the first rune. -/
def ucFirst (env : Env) (s : String) : String :=
  if s = "" then ""
  else
    match s.data with
    | [] => String.mk []
    | r0 :: rs => String.mk (unicodeToUpper env r0 :: rs)

/-- The function `lcFirst`: lower-case the first rune. -/
def lcFirst (env : Env) (s : String) : String :=
  if s = "" then ""
  else
    match s.data with
    | [] => String.mk []
    | r0 :: rs => String.mk (unicodeToLower env r0 :: rs)

/-! ## Data model -/

/-- The part of the embedded `*Type` that `object.go` reads: the modifier chain (outermost
first), the scalar marker and the two type names. -/
structure TypeInfo where
  Modifiers : List String
  IsScalar : Bool
  GoType : String
  GQLType : String
  deriving DecidableEq, Repr

/-- The struct `FieldArgument`. -/
structure FieldArgument where
  type : TypeInfo
  GQLName : String
  deriving DecidableEq, Repr

/-- The attributes of the owning `Object` that a field reaches through its back link. -/
structure ObjectLink where
  GQLType : String
  Root : Bool
  DisableConcurrency : Bool
  deriving DecidableEq, Repr

/-- The struct `Field`. The embedded `*Type` is taken to be set: the generator is handed
resolved types only. The back link to the owning object may be nil. -/
structure Field where
  type : TypeInfo
  GQLName : String
  GoMethodName : String
  GoVarName : String
  Args : List FieldArgument
  NoErr : Bool
  Object : Option ObjectLink
  deriving DecidableEq, Repr

/-! ## The generator -/

/-- The template of the OPTIONAL case. -/
def ptrTemplate : String :=
  "\n\t\t\tif \x7b\x7b.val\x7d\x7d == nil \x7b\n\t\t\t\t\x7b\x7b.res\x7d\x7d = jsonw.Null\n\t\t\t\x7d else \x7b\n\t\t\t\t\x7b\x7b.next\x7d\x7d\n\t\t\t\x7d"

/-- The template of the LIST case. -/
def listTemplate : String :=
  "\n\t\t\t\x7b\x7b.arr\x7d\x7d := jsonw.Array\x7b\x7d\n\t\t\tfor \x7b\x7b.index\x7d\x7d := range \x7b\x7b.val\x7d\x7d \x7b\n\t\t\t\tvar \x7b\x7b.tmp\x7d\x7d jsonw.Writer\n\t\t\t\t\x7b\x7b.next\x7d\x7d\n\t\t\t\t\x7b\x7b.arr\x7d\x7d = append(\x7b\x7b.arr\x7d\x7d, \x7b\x7b.tmp\x7d\x7d)\n\t\t\t\x7d\n\t\t\t\x7b\x7b.res\x7d\x7d = \x7b\x7b.arr\x7d\x7d"

/-- The method `doWriteJson`. The `switch` tries its cases in order: head is `modPtr`, head is
`modList`, the field is scalar, default. The arguments of `tpl` are evaluated before the call,
so the recursive call comes first. -/
def doWriteJson (env : Env) (f : Field) :
    String → String → List String → Bool → Int → Except TplFailure String
  | res, val, [], isPtr, _ =>
    if f.type.IsScalar then
      let val := if isPtr then "*" ++ val else val
      .ok (res ++ " = jsonw." ++ ucFirst env f.type.GoType ++ "(" ++ val ++ ")")
    else
      let val := if !isPtr then "&" ++ val else val
      .ok (res ++ " = ec._" ++ lcFirst env f.type.GQLType ++ "(field.Selections, " ++ val ++ ")")
  | res, val, m :: rest, isPtr, depth =>
    if m = env.modPtr then
      match doWriteJson env f res val rest true (intAdd depth 1) with
      | .ok next => tpl ptrTemplate [("res", res), ("val", val), ("next", next)]
      | .error e => .error e
    else if m = env.modList then
      let val := if isPtr then "*" ++ val else val
      let tmp := "tmp" ++ Itoa depth
      let arr := "arr" ++ Itoa depth
      let index := "idx" ++ Itoa depth
      match doWriteJson env f tmp (val ++ "[" ++ index ++ "]") rest false (intAdd depth 1) with
      | .ok next =>
        tpl listTemplate
          [("res", res), ("val", val), ("tmp", tmp), ("arr", arr), ("index", index),
            ("next", next)]
      | .error e => .error e
    else if f.type.IsScalar then
      let val := if isPtr then "*" ++ val else val
      .ok (res ++ " = jsonw." ++ ucFirst env f.type.GoType ++ "(" ++ val ++ ")")
    else
      let val := if !isPtr then "&" ++ val else val
      .ok (res ++ " = ec._" ++ lcFirst env f.type.GQLType ++ "(field.Selections, " ++ val ++ ")")

/-- The method `WriteJson`. -/
def WriteJson (env : Env) (f : Field) (res : String) : Except TplFailure String :=
  doWriteJson env f res "res" f.type.Modifiers false 1


/-! ## The shape of the generated text -/

/-- The text of an OPTIONAL level: a nil check on `val` whose first branch stores the JSON null
marker in `res` and whose else branch is `next`. -/
def nilCheckText (val res next : String) : String :=
  "\n\t\t\tif " ++ val ++ " == nil \x7b\n\t\t\t\t" ++ res ++
    " = jsonw.Null\n\t\t\t\x7d else \x7b\n\t\t\t\t" ++ next ++ "\n\t\t\t\x7d"

/-- The text of a LIST level: the array `arr` is created, a loop with index `index` over `val`
declares `tmp`, runs `next` and appends `tmp` to `arr`, and `arr` is stored in `res`. -/
def loopText (arr index tmp val res next : String) : String :=
  "\n\t\t\t" ++ arr ++ " := jsonw.Array\x7b\x7d\n\t\t\tfor " ++ index ++ " := range " ++ val ++
    " \x7b\n\t\t\t\tvar " ++ tmp ++ " jsonw.Writer\n\t\t\t\t" ++ next ++ "\n\t\t\t\t" ++ arr ++
    " = append(" ++ arr ++ ", " ++ tmp ++ ")\n\t\t\t\x7d\n\t\t\t" ++ res ++ " = " ++ arr

/-- The text of the scalar terminal: `res` receives the converter `conv` applied to `arg`. -/
def scalarText (res conv arg : String) : String :=
  res ++ " = jsonw." ++ conv ++ "(" ++ arg ++ ")"

/-- The text of the composite terminal: `res` receives the nested serializer `name` applied
to the selection context and `arg`. -/
def objectText (res name arg : String) : String :=
  res ++ " = ec._" ++ name ++ "(field.Selections, " ++ arg ++ ")"

/-! ## The structure of a fragment -/

/-- The two wrapping constructs of a fragment. -/
inductive Construct where
  /-- A nil-check conditional, generated for an OPTIONAL tag. -/
  | conditional
  /-- A for-loop, generated for a LIST tag. -/
  | forLoop
  deriving DecidableEq, Repr

/-- The two terminal assignments of a fragment. -/
inductive Terminal where
  /-- A scalar-converter call `jsonw.<Conv>(...)`. -/
  | scalarConverter
  /-- A nested-serializer call `ec._<name>(...)`. -/
  | nestedSerializer
  deriving DecidableEq, Repr

/-- A fragment as a tree: a nil check around the fragment of its else branch, a loop (whose
temporaries carry the suffix `depth`) around the fragment of its body, or one of the two
terminal assignments. -/
inductive Frag where
  | nilCheck (val res : String) (els : Frag)
  | loop (depth : Int) (val res : String) (body : Frag)
  | scalarCall (res conv arg : String)
  | objectCall (res name arg : String)
  deriving DecidableEq, Repr

/-- The text of a fragment tree. -/
def Frag.render : Frag → String
  | .nilCheck val res els => nilCheckText val res els.render
  | .loop d val res body =>
    loopText ("arr" ++ Itoa d) ("idx" ++ Itoa d) ("tmp" ++ Itoa d) val res body.render
  | .scalarCall res conv arg => scalarText res conv arg
  | .objectCall res name arg => objectText res name arg

/-- The wrapping constructs of a fragment tree, outermost first. -/
def Frag.constructs : Frag → List Construct
  | .nilCheck _ _ els => Construct.conditional :: els.constructs
  | .loop _ _ _ body => Construct.forLoop :: body.constructs
  | .scalarCall _ _ _ => []
  | .objectCall _ _ _ => []

/-- The terminal assignments of a fragment tree. -/
def Frag.terminals : Frag → List Terminal
  | .nilCheck _ _ els => els.terminals
  | .loop _ _ _ body => body.terminals
  | .scalarCall _ _ _ => [Terminal.scalarConverter]
  | .objectCall _ _ _ => [Terminal.nestedSerializer]

/-- The depth suffixes of the loops of a fragment tree, outermost first. -/
def Frag.loopDepths : Frag → List Int
  | .nilCheck _ _ els => els.loopDepths
  | .loop d _ _ body => d :: body.loopDepths
  | .scalarCall _ _ _ => []
  | .objectCall _ _ _ => []

/-- The construct that a tag of the chain stands for. -/
def constructOf (env : Env) (m : String) : Construct :=
  if m = env.modPtr then Construct.conditional else Construct.forLoop

/-- The terminal assignment that a field ends in. -/
def terminalOf (f : Field) : Terminal :=
  if f.type.IsScalar then Terminal.scalarConverter else Terminal.nestedSerializer

/-- The 0-based positions of the LIST tags in a chain. -/
def listPositions (env : Env) (mods : List String) : List Nat :=
  (List.range mods.length).filter (fun i => mods[i]? = some env.modList)

/-- A fragment stores into the result name `res`: it is an assignment to `res`, or a loop
followed by the assignment of its array to `res`, or a nil check whose first branch stores the
null marker in `res` and whose else branch stores into `res`. -/
inductive AssignsTo (res : String) : String → Prop where
  | assignment (rhs : String) : AssignsTo res (res ++ " = " ++ rhs)
  | afterLoop (arr index tmp val next : String) :
    AssignsTo res (loopText arr index tmp val res next)
  | bothBranches (val next : String) :
    AssignsTo res next → AssignsTo res (nilCheckText val res next)

/-! ## The invocations of `doWriteJson` -/

/-- The arguments of one invocation of `doWriteJson`. -/
structure Call where
  res : String
  val : String
  remainingMods : List String
  isPtr : Bool
  depth : Int
  deriving DecidableEq, Repr

/-- The invocations of `doWriteJson` that one invocation causes, itself first, in call order:
the OPTIONAL and the LIST case make one recursive call each, the terminal cases none. -/
def doWriteJsonCalls (env : Env) : String → String → List String → Bool → Int → List Call
  | res, val, [], isPtr, depth => [⟨res, val, [], isPtr, depth⟩]
  | res, val, m :: rest, isPtr, depth =>
    ⟨res, val, m :: rest, isPtr, depth⟩ ::
      (if m = env.modPtr then doWriteJsonCalls env res val rest true (intAdd depth 1)
      else if m = env.modList then
        let val := if isPtr then "*" ++ val else val
        let tmp := "tmp" ++ Itoa depth
        let index := "idx" ++ Itoa depth
        doWriteJsonCalls env tmp (val ++ "[" ++ index ++ "]") rest false (intAdd depth 1)
      else [])

/-! ## The tree that `doWriteJson` writes -/

/-- The tree of the fragment of `doWriteJson`, by the case analysis of `doWriteJson`: a nil
check where the OPTIONAL case renders its template, a loop where the LIST case renders its
template, and the scalar or composite assignment where a terminal case formats it. Every
node holds the strings that the code passes at that point. -/
def fragTree (env : Env) (f : Field) : String → String → List String → Bool → Int → Frag
  | res, val, [], isPtr, _ =>
    if f.type.IsScalar then
      Frag.scalarCall res (ucFirst env f.type.GoType) (if isPtr then "*" ++ val else val)
    else
      Frag.objectCall res (lcFirst env f.type.GQLType) (if !isPtr then "&" ++ val else val)
  | res, val, m :: rest, isPtr, depth =>
    if m = env.modPtr then
      Frag.nilCheck val res (fragTree env f res val rest true (intAdd depth 1))
    else if m = env.modList then
      let val := if isPtr then "*" ++ val else val
      let tmp := "tmp" ++ Itoa depth
      let index := "idx" ++ Itoa depth
      Frag.loop depth val res
        (fragTree env f tmp (val ++ "[" ++ index ++ "]") rest false (intAdd depth 1))
    else if f.type.IsScalar then
      Frag.scalarCall res (ucFirst env f.type.GoType) (if isPtr then "*" ++ val else val)
    else
      Frag.objectCall res (lcFirst env f.type.GQLType) (if !isPtr then "&" ++ val else val)

/-! ## Example inputs -/

/-- An environment with the tags `*` and `[]` and identity tables above ASCII. -/
def exampleEnv : Env := ⟨"*", "[]", id, id⟩

/-- A field with the given type and no other attribute. -/
def fieldOf (t : TypeInfo) : Field := ⟨t, "", "", "", [], false, none⟩

/-- A scalar field of Go type `string`. -/
def stringField (mods : List String) : Field := fieldOf ⟨mods, true, "string", "String"⟩

/-- A composite field of GraphQL type `User`. -/
def userField (mods : List String) : Field := fieldOf ⟨mods, false, "User", "User"⟩

/-- A field with the given GraphQL name and a `string` type. -/
def namedField (name : String) : Field :=
  ⟨⟨[], true, "string", "String"⟩, name, "", "", [], false, none⟩

/-- A field of type optional `string` bound to a method, with an argument and an owner. -/
def boundStringField : Field :=
  ⟨⟨["*"], true, "string", "String"⟩, "name", "Name", "name",
    [⟨⟨[], true, "int", "Int"⟩, "first"⟩], true, some ⟨"User", true, true⟩⟩

/-! ## Field lookup -/

/-- The struct `Object`, with the GraphQL type name of its embedded `*NamedType`. -/
structure Object where
  GQLType : String
  Fields : List Field
  Satisfies : List String
  Root : Bool
  DisableConcurrency : Bool
  deriving DecidableEq, Repr

/-- The loop of `GetField` over the fields from index `i` on: the index of the first field
whose `GQLName` folds to `name`. The comparison `strings.EqualFold` of the Go library is the
parameter `equalFold`. -/
def getFieldLoop (equalFold : String → String → Bool) (name : String) :
    List Field → Nat → Option Nat
  | [], _ => none
  | field :: rest, i =>
    if equalFold field.GQLName name then some i
    else getFieldLoop equalFold name rest (i + 1)

/-- The method `GetField`. The pointer `&o.Fields[i]` it returns is the index `i`; `nil` is
`none`. -/
def GetField (equalFold : String → String → Bool) (o : Object) (name : String) : Option Nat :=
  getFieldLoop equalFold name o.Fields 0

/-- A comparison that ignores the case of ASCII letters, for the examples. -/
def asciiEqualFold (s t : String) : Bool :=
  s.data.map Char.toLower == t.data.map Char.toLower

/-- An object with the fields `id`, `Name` and `name`. -/
def exampleObject : Object :=
  ⟨"User", [namedField "id", namedField "Name", namedField "name"], [], false, false⟩

/-! ## Rendering the two templates -/

theorem parse_ptrTemplate :
    parseTemplate ptrTemplate = .ok
      [Node.text "\n\t\t\tif ".data, Node.field "val".data,
       Node.text " == nil \x7b\n\t\t\t\t".data, Node.field "res".data,
       Node.text " = jsonw.Null\n\t\t\t\x7d else \x7b\n\t\t\t\t".data, Node.field "next".data,
       Node.text "\n\t\t\t\x7d".data] := by
  rfl

theorem parse_listTemplate :
    parseTemplate listTemplate = .ok
      [Node.text "\n\t\t\t".data, Node.field "arr".data,
       Node.text " := jsonw.Array\x7b\x7d\n\t\t\tfor ".data, Node.field "index".data,
       Node.text " := range ".data, Node.field "val".data,
       Node.text " \x7b\n\t\t\t\tvar ".data, Node.field "tmp".data,
       Node.text " jsonw.Writer\n\t\t\t\t".data, Node.field "next".data,
       Node.text "\n\t\t\t\t".data, Node.field "arr".data,
       Node.text " = append(".data, Node.field "arr".data,
       Node.text ", ".data, Node.field "tmp".data,
       Node.text ")\n\t\t\t\x7d\n\t\t\t".data, Node.field "res".data,
       Node.text " = ".data, Node.field "arr".data, Node.text [] ] := by
  rfl

theorem tpl_ptrTemplate (res val next : String) :
    tpl ptrTemplate [("res", res), ("val", val), ("next", next)] =
      .ok (nilCheckText val res next) := by
  unfold tpl
  rw [parse_ptrTemplate]
  simp [execNodes, execNode, List.lookup, String.append_assoc, nilCheckText]

theorem tpl_listTemplate (res val tmp arr index next : String) :
    tpl listTemplate
      [("res", res), ("val", val), ("tmp", tmp), ("arr", arr), ("index", index),
        ("next", next)] = .ok (loopText arr index tmp val res next) := by
  unfold tpl
  rw [parse_listTemplate]
  simp [execNodes, execNode, List.lookup, String.append_assoc, loopText]

/-! ## Unfolding `doWriteJson` -/

theorem doWriteJson_nil (env : Env) (f : Field) (res val : String) (isPtr : Bool) (depth : Int) :
    doWriteJson env f res val [] isPtr depth =
      if f.type.IsScalar then
        .ok (scalarText res (ucFirst env f.type.GoType) (if isPtr then "*" ++ val else val))
      else
        .ok (objectText res (lcFirst env f.type.GQLType) (if isPtr then val else "&" ++ val)) := by
  cases isPtr <;> simp [doWriteJson, scalarText, objectText]

theorem doWriteJson_ok (env : Env) (f : Field) (mods : List String) :
    ∀ (res val : String) (isPtr : Bool) (depth : Int),
      ∃ s, doWriteJson env f res val mods isPtr depth = .ok s := by
  induction mods with
  | nil =>
    intro res val isPtr depth
    rw [doWriteJson_nil]
    split <;> exact ⟨_, rfl⟩
  | cons m rest ih =>
    intro res val isPtr depth
    rw [doWriteJson]
    split
    · obtain ⟨next, h⟩ := ih res val true (intAdd depth 1)
      rw [h]
      exact ⟨_, tpl_ptrTemplate res val next⟩
    · split
      · simp only []
        obtain ⟨next, h⟩ := ih ("tmp" ++ Itoa depth)
          ((if isPtr then "*" ++ val else val) ++ "[" ++ ("idx" ++ Itoa depth) ++ "]") false
          (intAdd depth 1)
        rw [h]
        exact ⟨_, tpl_listTemplate _ _ _ _ _ _⟩
      · split <;> exact ⟨_, rfl⟩

theorem doWriteJson_modPtr (env : Env) (f : Field) (res val : String) (rest : List String)
    (isPtr : Bool) (depth : Int) (next : String)
    (h : doWriteJson env f res val rest true (intAdd depth 1) = .ok next) :
    doWriteJson env f res val (env.modPtr :: rest) isPtr depth = .ok (nilCheckText val res next) := by
  rw [doWriteJson, if_pos rfl, h]
  exact tpl_ptrTemplate res val next

theorem doWriteJson_modList (env : Env) (f : Field) (res val m : String) (rest : List String)
    (isPtr : Bool) (depth : Int) (next : String) (hp : m ≠ env.modPtr) (hl : m = env.modList)
    (h : doWriteJson env f ("tmp" ++ Itoa depth)
      ((if isPtr then "*" ++ val else val) ++ "[" ++ ("idx" ++ Itoa depth) ++ "]") rest false
      (intAdd depth 1) = .ok next) :
    doWriteJson env f res val (m :: rest) isPtr depth =
      .ok (loopText ("arr" ++ Itoa depth) ("idx" ++ Itoa depth) ("tmp" ++ Itoa depth)
        (if isPtr then "*" ++ val else val) res next) := by
  rw [doWriteJson, if_neg hp, if_pos hl]
  simp only []
  rw [h]
  exact tpl_listTemplate _ _ _ _ _ _

theorem doWriteJson_other (env : Env) (f : Field) (res val m : String) (rest : List String)
    (isPtr : Bool) (depth : Int) (hp : m ≠ env.modPtr) (hl : m ≠ env.modList) :
    doWriteJson env f res val (m :: rest) isPtr depth = doWriteJson env f res val [] isPtr depth := by
  simp only [doWriteJson, if_neg hp, if_neg hl]

/-! ## The OPTIONAL and LIST cases -/

/-- C1. OPTIONAL case of `doWriteJson`: when the head of the modifier list is `modPtr`, the
fragment is the conditional `if val == nil { res = jsonw.Null } else { NEXT }`, where NEXT is
the fragment of `doWriteJson res val (tail mods) true (depth+1)` (`+` on Go `int`): the same
result name and value expression are passed down, the flag is forced to true, and the output
is the same for every incoming flag. -/
theorem optional_case_fragment (env : Env) (f : Field) (res val : String) (rest : List String)
    (b : Bool) (d : Int) :
    ∃ next, doWriteJson env f res val rest true (intAdd d 1) = .ok next ∧
      doWriteJson env f res val (env.modPtr :: rest) b d =
        .ok ("\n\t\t\tif " ++ val ++ " == nil \x7b\n\t\t\t\t" ++ res ++
          " = jsonw.Null\n\t\t\t\x7d else \x7b\n\t\t\t\t" ++ next ++ "\n\t\t\t\x7d") ∧
      ∀ b2, doWriteJson env f res val (env.modPtr :: rest) b2 d =
        doWriteJson env f res val (env.modPtr :: rest) b d := by
  obtain ⟨next, h⟩ := doWriteJson_ok env f rest res val true (intAdd d 1)
  refine ⟨next, h, doWriteJson_modPtr env f res val rest b d next h, ?_⟩
  intro b2
  rw [doWriteJson_modPtr env f res val rest b d next h,
    doWriteJson_modPtr env f res val rest b2 d next h]

/-- C2. LIST case of `doWriteJson`: when the head of the modifier list is `modList` (a tag
different from `modPtr`), the fragment is, in this order, `arr<d> := jsonw.Array{}`, the loop
`for idx<d> := range V { var tmp<d> jsonw.Writer; NEXT; arr<d> = append(arr<d>, tmp<d>) }` and
`res = arr<d>`, where V is the value expression used at this level and NEXT is the fragment of
`doWriteJson tmp<d> (V + "[idx<d>]") (tail mods) false (d+1)`. -/
theorem list_case_fragment (env : Env) (f : Field) (res val : String) (rest : List String)
    (b : Bool) (d : Int) (hne : env.modList ≠ env.modPtr) :
    ∃ V next, V = (if b then "*" ++ val else val) ∧
      doWriteJson env f ("tmp" ++ Itoa d) (V ++ "[" ++ ("idx" ++ Itoa d) ++ "]") rest false
        (intAdd d 1) = .ok next ∧
      doWriteJson env f res val (env.modList :: rest) b d =
        .ok ("\n\t\t\t" ++ ("arr" ++ Itoa d) ++ " := jsonw.Array\x7b\x7d\n\t\t\tfor " ++
          ("idx" ++ Itoa d) ++ " := range " ++ V ++ " \x7b\n\t\t\t\tvar " ++ ("tmp" ++ Itoa d) ++
          " jsonw.Writer\n\t\t\t\t" ++ next ++ "\n\t\t\t\t" ++ ("arr" ++ Itoa d) ++
          " = append(" ++ ("arr" ++ Itoa d) ++ ", " ++ ("tmp" ++ Itoa d) ++
          ")\n\t\t\t\x7d\n\t\t\t" ++ res ++ " = " ++ ("arr" ++ Itoa d)) := by
  obtain ⟨next, h⟩ := doWriteJson_ok env f rest ("tmp" ++ Itoa d)
    ((if b then "*" ++ val else val) ++ "[" ++ ("idx" ++ Itoa d) ++ "]") false (intAdd d 1)
  exact ⟨_, next, rfl, h, doWriteJson_modList env f res val _ rest b d next hne rfl h⟩

/-- Witness of C2: the chain `[LIST]` of a `string` field at depth 1. -/
theorem list_case_fragment_witness :
    exampleEnv.modList ≠ exampleEnv.modPtr ∧
    ∃ V next, V = (if false then "*" ++ "res" else "res") ∧
      doWriteJson exampleEnv (stringField ["[]"]) ("tmp" ++ Itoa 1)
        (V ++ "[" ++ ("idx" ++ Itoa 1) ++ "]") [] false (intAdd 1 1) = .ok next ∧
      doWriteJson exampleEnv (stringField ["[]"]) "r" "res" (exampleEnv.modList :: []) false 1 =
        .ok ("\n\t\t\t" ++ ("arr" ++ Itoa 1) ++ " := jsonw.Array\x7b\x7d\n\t\t\tfor " ++
          ("idx" ++ Itoa 1) ++ " := range " ++ V ++ " \x7b\n\t\t\t\tvar " ++ ("tmp" ++ Itoa 1) ++
          " jsonw.Writer\n\t\t\t\t" ++ next ++ "\n\t\t\t\t" ++ ("arr" ++ Itoa 1) ++
          " = append(" ++ ("arr" ++ Itoa 1) ++ ", " ++ ("tmp" ++ Itoa 1) ++
          ")\n\t\t\t\x7d\n\t\t\t" ++ "r" ++ " = " ++ ("arr" ++ Itoa 1)) :=
  ⟨by decide, list_case_fragment exampleEnv (stringField ["[]"]) "r" "res" [] false 1 (by decide)⟩

/-- C3 fails as stated: with the flag false the LIST level of `WriteJson` for the chain
`[LIST]` ranges over `res` itself, and its text differs from every LIST fragment that ranges
over `*res`. -/
theorem list_deref_flag_false_counterexample :
    doWriteJson exampleEnv (stringField ["[]"]) "r" "res" ["[]"] false 1 =
        .ok (loopText "arr1" "idx1" "tmp1" "res" "r" "tmp1 = jsonw.String(res[idx1])") ∧
    ∀ next, doWriteJson exampleEnv (stringField ["[]"]) "r" "res" ["[]"] false 1 ≠
        .ok (loopText "arr1" "idx1" "tmp1" "*res" "r" next) := by
  have h : doWriteJson exampleEnv (stringField ["[]"]) "r" "res" ["[]"] false 1 =
      .ok (loopText "arr1" "idx1" "tmp1" "res" "r" "tmp1 = jsonw.String(res[idx1])") := by
    rfl
  refine ⟨h, ?_⟩
  intro next hn
  rw [h] at hn
  have h2 := congrArg String.data (Except.ok.inj hn)
  simp [loopText, String.data_append] at h2

/-- C3, amended. Dereference rule at a LIST level: when the head modifier is `modList` (a tag
different from `modPtr`), the sequence expression that is ranged over and indexed is
`"*" + val` when the flag `isPtr` is true, and `val` unchanged when the flag is false. -/
theorem list_deref_rule (env : Env) (f : Field) (res val : String) (rest : List String)
    (d : Int) (hne : env.modList ≠ env.modPtr) :
    (∃ next,
      doWriteJson env f ("tmp" ++ Itoa d) (("*" ++ val) ++ "[" ++ ("idx" ++ Itoa d) ++ "]") rest
        false (intAdd d 1) = .ok next ∧
      doWriteJson env f res val (env.modList :: rest) true d =
        .ok (loopText ("arr" ++ Itoa d) ("idx" ++ Itoa d) ("tmp" ++ Itoa d) ("*" ++ val) res
          next)) ∧
    (∃ next,
      doWriteJson env f ("tmp" ++ Itoa d) (val ++ "[" ++ ("idx" ++ Itoa d) ++ "]") rest
        false (intAdd d 1) = .ok next ∧
      doWriteJson env f res val (env.modList :: rest) false d =
        .ok (loopText ("arr" ++ Itoa d) ("idx" ++ Itoa d) ("tmp" ++ Itoa d) val res next)) := by
  constructor
  · obtain ⟨next, h⟩ := doWriteJson_ok env f rest ("tmp" ++ Itoa d)
      (("*" ++ val) ++ "[" ++ ("idx" ++ Itoa d) ++ "]") false (intAdd d 1)
    exact ⟨next, h, doWriteJson_modList env f res val _ rest true d next hne rfl h⟩
  · obtain ⟨next, h⟩ := doWriteJson_ok env f rest ("tmp" ++ Itoa d)
      (val ++ "[" ++ ("idx" ++ Itoa d) ++ "]") false (intAdd d 1)
    exact ⟨next, h, doWriteJson_modList env f res val _ rest false d next hne rfl h⟩

/-- Witness of the amended C3: a LIST level over `res` at depth 1 of a `string` field. -/
theorem list_deref_rule_witness :
    exampleEnv.modList ≠ exampleEnv.modPtr ∧
    ((∃ next,
      doWriteJson exampleEnv (stringField ["*", "[]"]) ("tmp" ++ Itoa 2)
        (("*" ++ "res") ++ "[" ++ ("idx" ++ Itoa 2) ++ "]") [] false (intAdd 2 1) = .ok next ∧
      doWriteJson exampleEnv (stringField ["*", "[]"]) "r" "res" (exampleEnv.modList :: []) true 2 =
        .ok (loopText ("arr" ++ Itoa 2) ("idx" ++ Itoa 2) ("tmp" ++ Itoa 2) ("*" ++ "res") "r"
          next)) ∧
    (∃ next,
      doWriteJson exampleEnv (stringField ["*", "[]"]) ("tmp" ++ Itoa 2)
        ("res" ++ "[" ++ ("idx" ++ Itoa 2) ++ "]") [] false (intAdd 2 1) = .ok next ∧
      doWriteJson exampleEnv (stringField ["*", "[]"]) "r" "res" (exampleEnv.modList :: []) false
          2 =
        .ok (loopText ("arr" ++ Itoa 2) ("idx" ++ Itoa 2) ("tmp" ++ Itoa 2) "res" "r" next))) :=
  ⟨by decide, list_deref_rule exampleEnv (stringField ["*", "[]"]) "r" "res" [] 2 (by decide)⟩

/-! ## The terminal cases -/

/-- C4 fails as stated: for a scalar field with no remaining modifier, the flag false leaves
the argument `res` as it is (it is not `*res`), and the flag true gives `*res`. -/
theorem scalar_terminal_counterexample :
    doWriteJson exampleEnv (stringField []) "r" "res" [] false 1 =
        .ok "r = jsonw.String(res)" ∧
    doWriteJson exampleEnv (stringField []) "r" "res" [] false 1 ≠
        .ok ("r" ++ " = jsonw." ++ "String" ++ "(" ++ ("*" ++ "res") ++ ")") ∧
    doWriteJson exampleEnv (stringField []) "r" "res" [] true 2 ≠
        .ok ("r" ++ " = jsonw." ++ "String" ++ "(" ++ "res" ++ ")") := by
  decide

/-- C4, amended. Scalar terminal case: for a scalar field and no remaining modifier the
fragment is the single assignment `res = jsonw.<Conv>(E)` with `<Conv>` the upper-cased Go type
name, and E is `"*" + val` when the flag `isPtr` is true, and `val` unchanged when it is
false. -/
theorem scalar_terminal (env : Env) (f : Field) (res val : String) (flag : Bool) (d : Int)
    (hs : f.type.IsScalar = true) :
    doWriteJson env f res val [] flag d =
      .ok (res ++ " = jsonw." ++ ucFirst env f.type.GoType ++ "(" ++
        (if flag then "*" ++ val else val) ++ ")") := by
  rw [doWriteJson_nil, if_pos hs]
  rfl

/-- Witness of the amended C4: a `string` field with the flag true. -/
theorem scalar_terminal_witness :
    (stringField []).type.IsScalar = true ∧
    doWriteJson exampleEnv (stringField []) "r" "res" [] true 1 =
      .ok ("r" ++ " = jsonw." ++ ucFirst exampleEnv (stringField []).type.GoType ++ "(" ++
        (if true then "*" ++ "res" else "res") ++ ")") :=
  ⟨by decide, scalar_terminal exampleEnv (stringField []) "r" "res" true 1 (by decide)⟩

/-- C5 fails as stated: for a composite field with no remaining modifier, the flag true leaves
the argument `res` as it is (it is not `&res`), and the flag false gives `&res`. -/
theorem composite_terminal_counterexample :
    doWriteJson exampleEnv (userField []) "r" "res" [] true 2 =
        .ok "r = ec._user(field.Selections, res)" ∧
    doWriteJson exampleEnv (userField []) "r" "res" [] true 2 ≠
        .ok ("r" ++ " = ec._" ++ "user" ++ "(field.Selections, " ++ ("&" ++ "res") ++ ")") ∧
    doWriteJson exampleEnv (userField []) "r" "res" [] false 2 ≠
        .ok ("r" ++ " = ec._" ++ "user" ++ "(field.Selections, " ++ "res" ++ ")") := by
  decide

/-- C5, amended. Composite terminal case: for a non-scalar field and no remaining modifier the
fragment is the single assignment `res = ec._<name>(field.Selections, A)` with `<name>` the
lower-cased GraphQL type name, and A is `"&" + val` when the flag `isPtr` is false, and `val`
unchanged when it is true. -/
theorem composite_terminal (env : Env) (f : Field) (res val : String) (flag : Bool) (d : Int)
    (hs : f.type.IsScalar = false) :
    doWriteJson env f res val [] flag d =
      .ok (res ++ " = ec._" ++ lcFirst env f.type.GQLType ++ "(field.Selections, " ++
        (if flag then val else "&" ++ val) ++ ")") := by
  rw [doWriteJson_nil, hs]
  rfl

/-- Witness of the amended C5: a `User` field with the flag false. -/
theorem composite_terminal_witness :
    (userField []).type.IsScalar = false ∧
    doWriteJson exampleEnv (userField []) "r" "res" [] false 1 =
      .ok ("r" ++ " = ec._" ++ lcFirst exampleEnv (userField []).type.GQLType ++
        "(field.Selections, " ++ (if false then "res" else "&" ++ "res") ++ ")") :=
  ⟨by decide, composite_terminal exampleEnv (userField []) "r" "res" false 1 (by decide)⟩

/-- C10. Empty chain over a composite: for a non-scalar field with an empty modifier chain,
`WriteJson r` is the single assignment `r = ec._<lcFirst(GQLType)>(field.Selections, &res)`,
with no conditional and no loop; the name derived from `User` is `user`. -/
theorem empty_chain_composite (env : Env) (f : Field) (r : String)
    (hs : f.type.IsScalar = false) (hm : f.type.Modifiers = []) :
    WriteJson env f r =
      .ok (r ++ " = ec._" ++ lcFirst env f.type.GQLType ++ "(field.Selections, &res)") ∧
    lcFirst env "User" = "user" := by
  refine ⟨?_, rfl⟩
  unfold WriteJson
  have e : "(field.Selections, " ++ ("&" ++ "res") ++ ")" = "(field.Selections, &res)" := by
    decide
  rw [hm, doWriteJson_nil, hs, ← e]
  simp only [objectText, String.append_assoc, Bool.false_eq_true, if_false]

/-- Witness of C10: the `User` field with no modifier. -/
theorem empty_chain_composite_witness :
    (userField []).type.IsScalar = false ∧ (userField []).type.Modifiers = [] ∧
    (WriteJson exampleEnv (userField []) "r" =
      .ok ("r" ++ " = ec._" ++ lcFirst exampleEnv (userField []).type.GQLType ++
        "(field.Selections, &res)") ∧
    lcFirst exampleEnv "User" = "user") :=
  ⟨by decide, by decide,
    empty_chain_composite exampleEnv (userField []) "r" (by decide) (by decide)⟩

/-! ## Decimal names are distinct -/

theorem digitChar_inj (a b : Nat) (ha : a < 10) (hb : b < 10) (h : digitChar a = digitChar b) :
    a = b := by
  have key : ∀ x y : Fin 10, digitChar x = digitChar y → x = y := by decide
  have := key ⟨a, ha⟩ ⟨b, hb⟩ h
  exact congrArg Fin.val this

theorem map_digitChar_inj (l1 : List Nat) :
    ∀ l2 : List Nat, (∀ x ∈ l1, x < 10) → (∀ x ∈ l2, x < 10) →
      l1.map digitChar = l2.map digitChar → l1 = l2 := by
  induction l1 with
  | nil =>
    intro l2 _ _ h
    cases l2 with
    | nil => rfl
    | cons y ys => simp at h
  | cons x xs ih =>
    intro l2 h1 h2 h
    cases l2 with
    | nil => simp at h
    | cons y ys =>
      simp only [List.map_cons, List.cons.injEq] at h
      have hx : x = y :=
        digitChar_inj x y (h1 x (List.mem_cons_self _ _)) (h2 y (List.mem_cons_self _ _)) h.1
      have hxs : xs = ys :=
        ih ys (fun z hz => h1 z (List.mem_cons_of_mem _ hz))
          (fun z hz => h2 z (List.mem_cons_of_mem _ hz)) h.2
      rw [hx, hxs]

theorem natDecimalAux_eq (fuel : Nat) :
    ∀ (n : Nat) (acc : List Char), n < fuel →
      natDecimalAux fuel n acc =
        ((if n = 0 then [0] else Nat.digits 10 n).reverse).map digitChar ++ acc := by
  induction fuel with
  | zero => intro n acc h; omega
  | succ k ih =>
    intro n acc h
    rw [natDecimalAux]
    by_cases h10 : n < 10
    · rw [if_pos h10]
      by_cases h0 : n = 0
      · simp [h0]
      · rw [if_neg h0, Nat.digits_of_lt 10 n h0 h10]
        simp
    · rw [if_neg h10]
      have hpos : 0 < n := by omega
      have hdiv : n / 10 < k := by omega
      have hdiv0 : n / 10 ≠ 0 := by omega
      have hn0 : n ≠ 0 := by omega
      rw [ih (n / 10) _ hdiv, if_neg hdiv0, if_neg hn0]
      rw [Nat.digits_def' (by norm_num : 1 < 10) hpos]
      simp

theorem natDecimal_inj (a b : Nat) (h : natDecimal a = natDecimal b) : a = b := by
  unfold natDecimal at h
  rw [natDecimalAux_eq _ a [] (by omega), natDecimalAux_eq _ b [] (by omega)] at h
  simp only [List.append_nil] at h
  have hlt : ∀ n : Nat, ∀ x ∈ (if n = 0 then [0] else Nat.digits 10 n).reverse, x < 10 := by
    intro n x hx
    rw [List.mem_reverse] at hx
    by_cases h0 : n = 0
    · rw [if_pos h0] at hx
      simp at hx
      omega
    · rw [if_neg h0] at hx
      exact Nat.digits_lt_base (by norm_num) hx
  have h2 := map_digitChar_inj _ _ (hlt a) (hlt b) h
  have h3 := List.reverse_injective h2
  have hof : ∀ n : Nat, Nat.ofDigits 10 (if n = 0 then [0] else Nat.digits 10 n) = n := by
    intro n
    by_cases h0 : n = 0
    · simp [h0]
    · rw [if_neg h0, Nat.ofDigits_digits]
  rw [← hof a, ← hof b, h3]

theorem Itoa_natCast_inj (a b : Nat) (h : Itoa (a : Int) = Itoa (b : Int)) : a = b := by
  have h2 : String.mk (natDecimal a) = String.mk (natDecimal b) := h
  exact natDecimal_inj a b (congrArg String.data h2)

theorem append_Itoa_inj (p : String) (a b : Nat) (h : p ++ Itoa (a : Int) = p ++ Itoa (b : Int)) :
    a = b := by
  have h2 := congrArg String.data h
  simp only [String.data_append] at h2
  have h3 := List.append_cancel_left h2
  exact Itoa_natCast_inj a b (String.ext h3)

/-! ## Depth arithmetic -/

theorem intAdd_one_eq (d : Int) (h1 : -9223372036854775808 ≤ d) (h2 : d < 9223372036854775807) :
    intAdd d 1 = d + 1 := by
  unfold intAdd wrapInt
  omega

theorem intAdd_one_le (d : Int) (h1 : -9223372036854775808 ≤ d) :
    -9223372036854775808 ≤ intAdd d 1 ∧ intAdd d 1 ≤ d + 1 := by
  unfold intAdd wrapInt
  omega

/-! ## The call trace -/

theorem calls_length_le (env : Env) (mods : List String) :
    ∀ (res val : String) (b : Bool) (d : Int),
      (doWriteJsonCalls env res val mods b d).length ≤ mods.length + 1 := by
  induction mods with
  | nil => intro res val b d; simp [doWriteJsonCalls]
  | cons m rest ih =>
    intro res val b d
    rw [doWriteJsonCalls]
    simp only [List.length_cons]
    split
    · have := ih res val true (intAdd d 1)
      omega
    · split
      · have := ih ("tmp" ++ Itoa d)
          ((if b then "*" ++ val else val) ++ "[" ++ ("idx" ++ Itoa d) ++ "]") false (intAdd d 1)
        simp only [] at this ⊢
        omega
      · simp

theorem calls_length_eq (env : Env) (mods : List String)
    (hall : ∀ m ∈ mods, m = env.modPtr ∨ m = env.modList) :
    ∀ (res val : String) (b : Bool) (d : Int),
      (doWriteJsonCalls env res val mods b d).length = mods.length + 1 := by
  induction mods with
  | nil => intro res val b d; simp [doWriteJsonCalls]
  | cons m rest ih =>
    intro res val b d
    have ih2 := ih (fun x hx => hall x (List.mem_cons_of_mem _ hx))
    rw [doWriteJsonCalls]
    simp only [List.length_cons]
    split
    · rw [ih2]
    · split
      · rw [ih2]
      · rename_i h1 h2
        rcases hall m (List.mem_cons_self _ _) with h | h
        · exact absurd h h1
        · exact absurd h h2

theorem calls_remainingMods (env : Env) (mods : List String) :
    ∀ (res val : String) (b : Bool) (d : Int) (i : Nat) (c : Call),
      (doWriteJsonCalls env res val mods b d)[i]? = some c → c.remainingMods = mods.drop i := by
  induction mods with
  | nil =>
    intro res val b d i c h
    cases i with
    | zero =>
      simp [doWriteJsonCalls] at h
      rw [← h]
      rfl
    | succ k => simp [doWriteJsonCalls] at h
  | cons m rest ih =>
    intro res val b d i c h
    rw [doWriteJsonCalls] at h
    cases i with
    | zero =>
      simp at h
      rw [← h]
      rfl
    | succ k =>
      simp only [List.getElem?_cons_succ, List.drop_succ_cons] at h ⊢
      split at h
      · exact ih _ _ _ _ k c h
      · split at h
        · exact ih _ _ _ _ k c h
        · simp at h

theorem calls_depth_le (env : Env) (mods : List String) :
    ∀ (res val : String) (b : Bool) (d : Int), -9223372036854775808 ≤ d →
      ∀ c ∈ doWriteJsonCalls env res val mods b d, c.depth ≤ d + mods.length := by
  induction mods with
  | nil =>
    intro res val b d _ c hc
    simp [doWriteJsonCalls] at hc
    rw [hc]
    simp
  | cons m rest ih =>
    intro res val b d hd c hc
    rw [doWriteJsonCalls] at hc
    have hstep := intAdd_one_le d hd
    simp only [List.length_cons, Nat.cast_add, Nat.cast_one]
    rcases List.mem_cons.mp hc with h0 | ht
    · rw [h0]
      show d ≤ d + (↑rest.length + 1)
      omega
    · split at ht
      · have := ih _ _ _ _ hstep.1 c ht
        omega
      · split at ht
        · have := ih _ _ _ _ hstep.1 c ht
          omega
        · simp at ht

theorem calls_depth_eq (env : Env) (mods : List String)
    (hall : ∀ m ∈ mods, m = env.modPtr ∨ m = env.modList) :
    ∀ (res val : String) (b : Bool) (d : Int), -9223372036854775808 ≤ d →
      d + mods.length < 9223372036854775808 →
      ∀ i : Nat, i ≤ mods.length →
        ∃ c, (doWriteJsonCalls env res val mods b d)[i]? = some c ∧ c.depth = d + i := by
  induction mods with
  | nil =>
    intro res val b d _ _ i hi
    have hi0 : i = 0 := by simpa using hi
    subst hi0
    exact ⟨⟨res, val, [], b, d⟩, by simp [doWriteJsonCalls], by simp⟩
  | cons m rest ih =>
    intro res val b d hd hlen i hi
    have ih2 := ih (fun x hx => hall x (List.mem_cons_of_mem _ hx))
    simp only [List.length_cons, Nat.cast_add, Nat.cast_one] at hlen hi
    have hstep : intAdd d 1 = d + 1 := intAdd_one_eq d hd (by omega)
    rw [doWriteJsonCalls]
    cases i with
    | zero => exact ⟨⟨res, val, m :: rest, b, d⟩, by simp, by simp⟩
    | succ k =>
      simp only [List.getElem?_cons_succ]
      have hk : k ≤ rest.length := by omega
      split
      · obtain ⟨c, h1, h2⟩ := ih2 res val true (intAdd d 1) (by omega) (by omega) k hk
        refine ⟨c, h1, ?_⟩
        rw [h2, hstep]
        push_cast
        omega
      · split
        · obtain ⟨c, h1, h2⟩ := ih2 ("tmp" ++ Itoa d)
            ((if b then "*" ++ val else val) ++ "[" ++ ("idx" ++ Itoa d) ++ "]") false
            (intAdd d 1) (by omega) (by omega) k hk
          refine ⟨c, h1, ?_⟩
          rw [h2, hstep]
          push_cast
          omega
        · rename_i h1 h2
          rcases hall m (List.mem_cons_self _ _) with h | h
          · exact absurd h h1
          · exact absurd h h2

/-! ## The fragment as a tree -/

theorem listPositions_cons (env : Env) (m : String) (rest : List String) :
    listPositions env (m :: rest) =
      (if m = env.modList then [0] else []) ++ (listPositions env rest).map (· + 1) := by
  unfold listPositions
  rw [List.length_cons, List.range_succ_eq_map, List.filter_cons, List.filter_map]
  have hf : ((fun i => decide ((m :: rest)[i]? = some env.modList)) ∘ Nat.succ) =
      (fun i => decide (rest[i]? = some env.modList)) := by
    funext i
    simp
  rw [hf]
  by_cases h : m = env.modList
  · simp [h]
  · simp [h]

theorem frag_of_chain (env : Env) (f : Field) (mods : List String)
    (hall : ∀ m ∈ mods, m = env.modPtr ∨ m = env.modList) :
    ∀ (res val : String) (b : Bool) (d : Int),
      ∃ fr : Frag, doWriteJson env f res val mods b d = .ok fr.render ∧
        fr.constructs = mods.map (constructOf env) ∧
        fr.terminals = [terminalOf f] ∧
        (env.modList ≠ env.modPtr → -9223372036854775808 ≤ d →
          d + mods.length < 9223372036854775808 →
          fr.loopDepths = (listPositions env mods).map (fun (i : Nat) => d + (i : Int))) := by
  induction mods with
  | nil =>
    intro res val b d
    rw [doWriteJson_nil]
    by_cases hs : f.type.IsScalar = true
    · rw [if_pos hs]
      exact ⟨Frag.scalarCall _ _ _, rfl, rfl, by simp [Frag.terminals, terminalOf, hs],
        fun _ _ _ => rfl⟩
    · rw [if_neg hs]
      exact ⟨Frag.objectCall _ _ _, rfl, rfl, by simp [Frag.terminals, terminalOf, hs],
        fun _ _ _ => rfl⟩
  | cons m rest ih =>
    intro res val b d
    have ih2 := ih (fun x hx => hall x (List.mem_cons_of_mem _ hx))
    have hshift : ∀ l : List Nat,
        (l.map (· + 1)).map (fun (i : Nat) => d + (i : Int)) = l.map (fun (i : Nat) => d + 1 + (i : Int)) := by
      intro l
      rw [List.map_map]
      apply List.map_congr_left
      intro i _
      simp only [Function.comp]
      push_cast
      omega
    by_cases hp : m = env.modPtr
    · obtain ⟨fr, h1, h2, h3, h4⟩ := ih2 res val true (intAdd d 1)
      refine ⟨Frag.nilCheck val res fr, ?_, ?_, h3, ?_⟩
      · rw [hp]
        exact doWriteJson_modPtr env f res val rest b d _ h1
      · simp [Frag.constructs, h2, constructOf, hp]
      · intro hne hd hlen
        simp only [List.length_cons, Nat.cast_add, Nat.cast_one] at hlen
        have hstep : intAdd d 1 = d + 1 := intAdd_one_eq d hd (by omega)
        have hml : m ≠ env.modList := fun h => hne (h.symm.trans hp)
        rw [listPositions_cons, if_neg hml, List.nil_append, hshift]
        rw [hstep] at h4
        exact h4 hne (by omega) (by omega)
    · have hl : m = env.modList := by
        rcases hall m (List.mem_cons_self _ _) with h | h
        · exact absurd h hp
        · exact h
      obtain ⟨fr, h1, h2, h3, h4⟩ := ih2 ("tmp" ++ Itoa d)
        ((if b then "*" ++ val else val) ++ "[" ++ ("idx" ++ Itoa d) ++ "]") false (intAdd d 1)
      refine ⟨Frag.loop d (if b then "*" ++ val else val) res fr, ?_, ?_, h3, ?_⟩
      · exact doWriteJson_modList env f res val m rest b d _ hp hl h1
      · simp [Frag.constructs, h2, constructOf, hp]
      · intro hne hd hlen
        simp only [List.length_cons, Nat.cast_add, Nat.cast_one] at hlen
        have hstep : intAdd d 1 = d + 1 := intAdd_one_eq d hd (by omega)
        rw [listPositions_cons, if_pos hl, List.map_append, hshift]
        rw [hstep] at h4
        simp only [Frag.loopDepths, List.map_cons, List.map_nil, Nat.cast_zero, add_zero,
          List.singleton_append]
        rw [h4 hne (by omega) (by omega)]

theorem count_constructs (env : Env) (hne : env.modList ≠ env.modPtr) (mods : List String)
    (hall : ∀ m ∈ mods, m = env.modPtr ∨ m = env.modList) :
    (mods.map (constructOf env)).count Construct.conditional = mods.count env.modPtr ∧
    (mods.map (constructOf env)).count Construct.forLoop = mods.count env.modList := by
  induction mods with
  | nil => simp
  | cons m rest ih =>
    have ih2 := ih (fun x hx => hall x (List.mem_cons_of_mem _ hx))
    rcases hall m (List.mem_cons_self _ _) with h | h
    · have hml : ¬ (env.modPtr = env.modList) := fun e => hne e.symm
      simp [List.count_cons, constructOf, h, ih2.1, ih2.2, hml]
    · simp [List.count_cons, constructOf, h, ih2.1, ih2.2, hne]

/-! ## Names, construct count, termination, result slot -/

/-- C6. Collision-free temporaries: for a field whose chain holds only OPTIONAL and LIST tags
(two different tags; the chain has fewer than 2^63 - 1 entries, as every Go slice of strings
has), the top call of `WriteJson` has depth 1 and the call at nesting level `i` has depth
`i + 1` and the chain without its first `i` tags, through OPTIONAL and LIST alike; the loops
of the generated fragment, outermost first, carry the suffixes `i + 1` for the positions `i`
of the LIST tags, so that the LIST tag at position `i` introduces `tmp<i+1>`, `arr<i+1>` and
`idx<i+1>`; and names of different positions or of different kinds are different. -/
theorem collision_free_temporaries (env : Env) (f : Field) (r : String)
    (hne : env.modList ≠ env.modPtr)
    (hall : ∀ m ∈ f.type.Modifiers, m = env.modPtr ∨ m = env.modList)
    (hlen : f.type.Modifiers.length + 1 < 9223372036854775808) :
    (∀ i : Nat, i ≤ f.type.Modifiers.length →
      ∃ c, (doWriteJsonCalls env r "res" f.type.Modifiers false 1)[i]? = some c ∧
        c.depth = (i : Int) + 1 ∧ c.remainingMods = f.type.Modifiers.drop i) ∧
    (∃ fr : Frag, WriteJson env f r = .ok fr.render ∧
      fr.loopDepths =
        (listPositions env f.type.Modifiers).map (fun (i : Nat) => (i : Int) + 1)) ∧
    (∀ i j : Nat, i ≠ j →
      "tmp" ++ Itoa ((i : Int) + 1) ≠ "tmp" ++ Itoa ((j : Int) + 1) ∧
      "arr" ++ Itoa ((i : Int) + 1) ≠ "arr" ++ Itoa ((j : Int) + 1) ∧
      "idx" ++ Itoa ((i : Int) + 1) ≠ "idx" ++ Itoa ((j : Int) + 1)) ∧
    (∀ a b : Int,
      "tmp" ++ Itoa a ≠ "arr" ++ Itoa b ∧ "tmp" ++ Itoa a ≠ "idx" ++ Itoa b ∧
      "arr" ++ Itoa a ≠ "idx" ++ Itoa b) := by
  refine ⟨?_, ?_, ?_, ?_⟩
  · intro i hi
    obtain ⟨c, h1, h2⟩ := calls_depth_eq env f.type.Modifiers hall r "res" false 1 (by norm_num)
      (by omega) i hi
    refine ⟨c, h1, ?_, calls_remainingMods env _ r "res" false 1 i c h1⟩
    rw [h2]
    omega
  · obtain ⟨fr, h1, _, _, h4⟩ := frag_of_chain env f f.type.Modifiers hall r "res" false 1
    refine ⟨fr, h1, ?_⟩
    rw [h4 hne (by norm_num) (by omega)]
    apply List.map_congr_left
    intro i _
    omega
  · intro i j hij
    have e : ∀ n : Nat, (n : Int) + 1 = ((n + 1 : Nat) : Int) := by
      intro n
      push_cast
      rfl
    rw [e i, e j]
    refine ⟨?_, ?_, ?_⟩ <;>
    · intro h
      have := append_Itoa_inj _ _ _ h
      omega
  · intro a b
    refine ⟨?_, ?_, ?_⟩ <;>
    · intro h
      have h2 := congrArg String.data h
      simp [String.data_append] at h2

/-- Witness of C6: the chain `[LIST, OPTIONAL, LIST]` of a `string` field. -/
theorem collision_free_temporaries_witness :
    exampleEnv.modList ≠ exampleEnv.modPtr ∧
    (∀ m ∈ (stringField ["[]", "*", "[]"]).type.Modifiers,
      m = exampleEnv.modPtr ∨ m = exampleEnv.modList) ∧
    (stringField ["[]", "*", "[]"]).type.Modifiers.length + 1 < 9223372036854775808 ∧
    ((∀ i : Nat, i ≤ (stringField ["[]", "*", "[]"]).type.Modifiers.length →
      ∃ c, (doWriteJsonCalls exampleEnv "r" "res" (stringField ["[]", "*", "[]"]).type.Modifiers
          false 1)[i]? = some c ∧
        c.depth = (i : Int) + 1 ∧
        c.remainingMods = (stringField ["[]", "*", "[]"]).type.Modifiers.drop i) ∧
    (∃ fr : Frag, WriteJson exampleEnv (stringField ["[]", "*", "[]"]) "r" = .ok fr.render ∧
      fr.loopDepths =
        (listPositions exampleEnv (stringField ["[]", "*", "[]"]).type.Modifiers).map
          (fun (i : Nat) => (i : Int) + 1)) ∧
    (∀ i j : Nat, i ≠ j →
      "tmp" ++ Itoa ((i : Int) + 1) ≠ "tmp" ++ Itoa ((j : Int) + 1) ∧
      "arr" ++ Itoa ((i : Int) + 1) ≠ "arr" ++ Itoa ((j : Int) + 1) ∧
      "idx" ++ Itoa ((i : Int) + 1) ≠ "idx" ++ Itoa ((j : Int) + 1)) ∧
    (∀ a b : Int,
      "tmp" ++ Itoa a ≠ "arr" ++ Itoa b ∧ "tmp" ++ Itoa a ≠ "idx" ++ Itoa b ∧
      "arr" ++ Itoa a ≠ "idx" ++ Itoa b)) :=
  ⟨by decide, by decide, by decide,
    collision_free_temporaries exampleEnv (stringField ["[]", "*", "[]"]) "r" (by decide)
      (by decide) (by decide)⟩

theorem doWriteJson_eq_render (env : Env) (f : Field) (mods : List String) :
    ∀ (res val : String) (b : Bool) (d : Int),
      doWriteJson env f res val mods b d = .ok (fragTree env f res val mods b d).render := by
  induction mods with
  | nil =>
    intro res val b d
    rw [doWriteJson_nil, fragTree]
    cases b <;> split <;> rfl
  | cons m rest ih =>
    intro res val b d
    by_cases hp : m = env.modPtr
    · rw [fragTree, if_pos hp, hp]
      exact doWriteJson_modPtr env f res val rest b d _ (ih res val true (intAdd d 1))
    · by_cases hl : m = env.modList
      · rw [fragTree, if_neg hp, if_pos hl]
        exact doWriteJson_modList env f res val m rest b d _ hp hl (ih _ _ false (intAdd d 1))
      · rw [doWriteJson_other env f res val m rest b d hp hl, doWriteJson_nil, fragTree,
          if_neg hp, if_neg hl]
        cases b <;> split <;> rfl

theorem fragTree_constructs (env : Env) (f : Field) (mods : List String)
    (hall : ∀ m ∈ mods, m = env.modPtr ∨ m = env.modList) :
    ∀ (res val : String) (b : Bool) (d : Int),
      (fragTree env f res val mods b d).constructs = mods.map (constructOf env) ∧
      (fragTree env f res val mods b d).terminals =
        [if f.type.IsScalar then Terminal.scalarConverter else Terminal.nestedSerializer] := by
  induction mods with
  | nil =>
    intro res val b d
    rw [fragTree]
    split <;> exact ⟨rfl, rfl⟩
  | cons m rest ih =>
    intro res val b d
    have ih2 := ih (fun x hx => hall x (List.mem_cons_of_mem _ hx))
    by_cases hp : m = env.modPtr
    · rw [fragTree, if_pos hp]
      obtain ⟨h1, h2⟩ := ih2 res val true (intAdd d 1)
      exact ⟨by simp [Frag.constructs, h1, constructOf, hp], by simp [Frag.terminals, h2]⟩
    · have hl : m = env.modList := by
        rcases hall m (List.mem_cons_self _ _) with h | h
        · exact absurd h hp
        · exact h
      rw [fragTree, if_neg hp, if_pos hl]
      obtain ⟨h1, h2⟩ := ih2 ("tmp" ++ Itoa d)
        ((if b then "*" ++ val else val) ++ "[" ++ ("idx" ++ Itoa d) ++ "]") false (intAdd d 1)
      exact ⟨by simp [Frag.constructs, h1, constructOf, hp], by simp [Frag.terminals, h2]⟩

/-- C7. Construct count: for a field whose chain of length N holds only OPTIONAL and LIST
tags (two different tags), the fragment of `WriteJson` is the text of the tree `fragTree`,
whose nodes are the template renderings and the assignment that the code makes; that tree
has exactly N wrapping constructs, a nil-check conditional for each OPTIONAL tag and a
for-loop for each LIST tag, nested in chain order, around exactly one terminal assignment: the
scalar-converter call for a scalar field, the nested-serializer call otherwise. -/
theorem construct_count (env : Env) (f : Field) (r : String)
    (hne : env.modList ≠ env.modPtr)
    (hall : ∀ m ∈ f.type.Modifiers, m = env.modPtr ∨ m = env.modList) :
    WriteJson env f r = .ok (fragTree env f r "res" f.type.Modifiers false 1).render ∧
    (fragTree env f r "res" f.type.Modifiers false 1).constructs =
      f.type.Modifiers.map (constructOf env) ∧
    (fragTree env f r "res" f.type.Modifiers false 1).constructs.length =
      f.type.Modifiers.length ∧
    (fragTree env f r "res" f.type.Modifiers false 1).constructs.count Construct.conditional =
      f.type.Modifiers.count env.modPtr ∧
    (fragTree env f r "res" f.type.Modifiers false 1).constructs.count Construct.forLoop =
      f.type.Modifiers.count env.modList ∧
    (fragTree env f r "res" f.type.Modifiers false 1).terminals =
      [if f.type.IsScalar then Terminal.scalarConverter else Terminal.nestedSerializer] := by
  obtain ⟨h2, h3⟩ := fragTree_constructs env f f.type.Modifiers hall r "res" false 1
  have hc := count_constructs env hne f.type.Modifiers hall
  refine ⟨doWriteJson_eq_render env f f.type.Modifiers r "res" false 1, h2, ?_, ?_, ?_, h3⟩
  · rw [h2, List.length_map]
  · rw [h2, hc.1]
  · rw [h2, hc.2]

/-- Witness of C7: the chain `[OPTIONAL, LIST]` of a `User` field. -/
theorem construct_count_witness :
    exampleEnv.modList ≠ exampleEnv.modPtr ∧
    (∀ m ∈ (userField ["*", "[]"]).type.Modifiers,
      m = exampleEnv.modPtr ∨ m = exampleEnv.modList) ∧
    (WriteJson exampleEnv (userField ["*", "[]"]) "r" =
      .ok (fragTree exampleEnv (userField ["*", "[]"]) "r" "res"
        (userField ["*", "[]"]).type.Modifiers false 1).render ∧
    (fragTree exampleEnv (userField ["*", "[]"]) "r" "res"
        (userField ["*", "[]"]).type.Modifiers false 1).constructs =
      (userField ["*", "[]"]).type.Modifiers.map (constructOf exampleEnv) ∧
    (fragTree exampleEnv (userField ["*", "[]"]) "r" "res"
        (userField ["*", "[]"]).type.Modifiers false 1).constructs.length =
      (userField ["*", "[]"]).type.Modifiers.length ∧
    (fragTree exampleEnv (userField ["*", "[]"]) "r" "res"
        (userField ["*", "[]"]).type.Modifiers false 1).constructs.count Construct.conditional =
      (userField ["*", "[]"]).type.Modifiers.count exampleEnv.modPtr ∧
    (fragTree exampleEnv (userField ["*", "[]"]) "r" "res"
        (userField ["*", "[]"]).type.Modifiers false 1).constructs.count Construct.forLoop =
      (userField ["*", "[]"]).type.Modifiers.count exampleEnv.modList ∧
    (fragTree exampleEnv (userField ["*", "[]"]) "r" "res"
        (userField ["*", "[]"]).type.Modifiers false 1).terminals =
      [if (userField ["*", "[]"]).type.IsScalar then Terminal.scalarConverter
        else Terminal.nestedSerializer]) :=
  ⟨by decide, by decide,
    construct_count exampleEnv (userField ["*", "[]"]) "r" (by decide) (by decide)⟩

theorem fragTree_example :
    fragTree exampleEnv (userField ["*", "[]"]) "r" "res" ["*", "[]"] false 1 =
      Frag.nilCheck "res" "r"
        (Frag.loop 2 "*res" "r" (Frag.objectCall "tmp2" "user" "&*res[idx2]")) := by
  decide

/-- C8. Termination: `doWriteJson` returns a fragment on every input; in the run of one
`WriteJson` call the invocation at nesting level `i` receives the chain without its first `i`
tags (each recursive call drops exactly the head), the terminal case makes no recursive call,
the number of invocations is at most `len(Modifiers) + 1`, and exactly that when every tag is
OPTIONAL or LIST, and no depth value exceeds `len(Modifiers) + 1`. -/
theorem doWriteJson_terminates (env : Env) (f : Field) (r : String) :
    (∀ (res val : String) (mods : List String) (b : Bool) (d : Int),
      ∃ s, doWriteJson env f res val mods b d = .ok s) ∧
    (∀ (i : Nat) (c : Call),
      (doWriteJsonCalls env r "res" f.type.Modifiers false 1)[i]? = some c →
        c.remainingMods = f.type.Modifiers.drop i) ∧
    (∀ (res val : String) (b : Bool) (d : Int),
      doWriteJsonCalls env res val [] b d = [⟨res, val, [], b, d⟩]) ∧
    (doWriteJsonCalls env r "res" f.type.Modifiers false 1).length ≤
      f.type.Modifiers.length + 1 ∧
    ((∀ m ∈ f.type.Modifiers, m = env.modPtr ∨ m = env.modList) →
      (doWriteJsonCalls env r "res" f.type.Modifiers false 1).length =
        f.type.Modifiers.length + 1) ∧
    (∀ c ∈ doWriteJsonCalls env r "res" f.type.Modifiers false 1,
      c.depth ≤ (f.type.Modifiers.length : Int) + 1) := by
  refine ⟨?_, ?_, ?_, ?_, ?_, ?_⟩
  · intro res val mods b d
    exact doWriteJson_ok env f mods res val b d
  · intro i c h
    exact calls_remainingMods env _ r "res" false 1 i c h
  · intro res val b d
    rfl
  · exact calls_length_le env _ r "res" false 1
  · intro hall
    exact calls_length_eq env _ hall r "res" false 1
  · intro c hc
    have := calls_depth_le env _ r "res" false 1 (by norm_num) c hc
    omega

/-- Witness of C8: the chain `[OPTIONAL, LIST]` of a `string` field causes three
invocations. -/
theorem doWriteJson_terminates_witness :
    (∀ m ∈ (stringField ["*", "[]"]).type.Modifiers,
      m = exampleEnv.modPtr ∨ m = exampleEnv.modList) ∧
    (doWriteJsonCalls exampleEnv "r" "res" (stringField ["*", "[]"]).type.Modifiers false
      1).length = (stringField ["*", "[]"]).type.Modifiers.length + 1 :=
  ⟨by decide,
    (doWriteJson_terminates exampleEnv (stringField ["*", "[]"]) "r").2.2.2.2.1 (by decide)⟩

/-- C9. Result slot is always assigned: `doWriteJson` always returns a fragment, and the
fragment stores into the result name it was given: with no modifier left (or an unrecognised
head) it is one assignment `res = ...`; in the LIST case its last statement is
`res = arr<depth>`; in the OPTIONAL case the nil branch is `res = jsonw.Null` and the else
branch is a fragment that stores into `res`. -/
theorem result_slot_assigned (env : Env) (f : Field) (res val : String) (b : Bool) (d : Int) :
    (∀ mods : List String,
      ∃ s, doWriteJson env f res val mods b d = .ok s ∧ AssignsTo res s) ∧
    (∃ rhs, doWriteJson env f res val [] b d = .ok (res ++ " = " ++ rhs)) ∧
    (∀ (m : String) (rest : List String),
      (m = env.modPtr ∧ ∃ next, AssignsTo res next ∧
        doWriteJson env f res val (m :: rest) b d =
          .ok ("\n\t\t\tif " ++ val ++ " == nil \x7b\n\t\t\t\t" ++ res ++
            " = jsonw.Null\n\t\t\t\x7d else \x7b\n\t\t\t\t" ++ next ++ "\n\t\t\t\x7d")) ∨
      (m ≠ env.modPtr ∧ m = env.modList ∧ ∃ pre,
        doWriteJson env f res val (m :: rest) b d =
          .ok (pre ++ "\n\t\t\t" ++ res ++ " = " ++ ("arr" ++ Itoa d))) ∨
      (m ≠ env.modPtr ∧ m ≠ env.modList ∧ ∃ rhs,
        doWriteJson env f res val (m :: rest) b d = .ok (res ++ " = " ++ rhs))) := by
  have hterm : ∀ (res val : String) (b : Bool) (d : Int),
      ∃ rhs, doWriteJson env f res val [] b d = .ok (res ++ " = " ++ rhs) := by
    intro res val b d
    have e1 : (" = jsonw." : String) = " = " ++ "jsonw." := by decide
    have e2 : (" = ec._" : String) = " = " ++ "ec._" := by decide
    rw [doWriteJson_nil]
    split
    · exact ⟨"jsonw." ++ ucFirst env f.type.GoType ++ "(" ++ (if b then "*" ++ val else val) ++
        ")", by simp only [scalarText, e1, String.append_assoc]⟩
    · exact ⟨"ec._" ++ lcFirst env f.type.GQLType ++ "(field.Selections, " ++
        (if b then val else "&" ++ val) ++ ")", by simp only [objectText, e2, String.append_assoc]⟩
  have hall : ∀ (mods : List String) (res val : String) (b : Bool) (d : Int),
      ∃ s, doWriteJson env f res val mods b d = .ok s ∧ AssignsTo res s := by
    intro mods
    induction mods with
    | nil =>
      intro res val b d
      obtain ⟨rhs, h⟩ := hterm res val b d
      exact ⟨_, h, AssignsTo.assignment rhs⟩
    | cons m rest ih =>
      intro res val b d
      by_cases hp : m = env.modPtr
      · obtain ⟨next, h1, h2⟩ := ih res val true (intAdd d 1)
        rw [hp]
        exact ⟨_, doWriteJson_modPtr env f res val rest b d next h1,
          AssignsTo.bothBranches val next h2⟩
      · by_cases hl : m = env.modList
        · obtain ⟨next, h1⟩ := doWriteJson_ok env f rest ("tmp" ++ Itoa d)
            ((if b then "*" ++ val else val) ++ "[" ++ ("idx" ++ Itoa d) ++ "]") false
            (intAdd d 1)
          exact ⟨_, doWriteJson_modList env f res val m rest b d next hp hl h1,
            AssignsTo.afterLoop _ _ _ _ _⟩
        · obtain ⟨rhs, h⟩ := hterm res val b d
          rw [doWriteJson_other env f res val m rest b d hp hl]
          exact ⟨_, h, AssignsTo.assignment rhs⟩
  refine ⟨fun mods => hall mods res val b d, hterm res val b d, ?_⟩
  intro m rest
  by_cases hp : m = env.modPtr
  · left
    obtain ⟨next, h1, h2⟩ := hall rest res val true (intAdd d 1)
    refine ⟨hp, next, h2, ?_⟩
    rw [hp]
    exact doWriteJson_modPtr env f res val rest b d next h1
  · right
    by_cases hl : m = env.modList
    · left
      obtain ⟨next, h1⟩ := doWriteJson_ok env f rest ("tmp" ++ Itoa d)
        ((if b then "*" ++ val else val) ++ "[" ++ ("idx" ++ Itoa d) ++ "]") false
        (intAdd d 1)
      refine ⟨hp, hl, "\n\t\t\t" ++ ("arr" ++ Itoa d) ++ " := jsonw.Array\x7b\x7d\n\t\t\tfor " ++
        ("idx" ++ Itoa d) ++ " := range " ++ (if b then "*" ++ val else val) ++
        " \x7b\n\t\t\t\tvar " ++ ("tmp" ++ Itoa d) ++ " jsonw.Writer\n\t\t\t\t" ++ next ++
        "\n\t\t\t\t" ++ ("arr" ++ Itoa d) ++ " = append(" ++ ("arr" ++ Itoa d) ++ ", " ++
        ("tmp" ++ Itoa d) ++ ")\n\t\t\t\x7d", ?_⟩
      rw [doWriteJson_modList env f res val m rest b d next hp hl h1]
      have e : (")\n\t\t\t\x7d\n\t\t\t" : String) = ")\n\t\t\t\x7d" ++ "\n\t\t\t" := by decide
      simp only [loopText, e, String.append_assoc]
    · right
      obtain ⟨rhs, h⟩ := hterm res val b d
      refine ⟨hp, hl, rhs, ?_⟩
      rw [doWriteJson_other env f res val m rest b d hp hl]
      exact h

/-! ## The chains of the examples -/

/-- C11 fails as stated: for a `string` field with no modifier, `WriteJson r` passes `res`
itself to the converter, not the dereferenced form `*res`. -/
theorem empty_chain_scalar_counterexample :
    WriteJson exampleEnv (stringField []) "r" = .ok "r = jsonw.String(res)" ∧
    WriteJson exampleEnv (stringField []) "r" ≠ .ok "r = jsonw.String(*res)" := by
  decide

/-- C11, amended. Empty chain over a scalar: for a scalar field with an empty modifier chain,
`WriteJson r` is the single assignment `r = jsonw.<ucFirst(GoType)>(res)`, with no conditional
and no loop: the converter is called once and its argument is the value expression `res`
itself, not dereferenced. -/
theorem empty_chain_scalar (env : Env) (f : Field) (r : String)
    (hs : f.type.IsScalar = true) (hm : f.type.Modifiers = []) :
    WriteJson env f r = .ok (r ++ " = jsonw." ++ ucFirst env f.type.GoType ++ "(res)") := by
  have e : "(" ++ "res" ++ ")" = "(res)" := by decide
  unfold WriteJson
  rw [hm, doWriteJson_nil, if_pos hs, ← e]
  simp only [scalarText, String.append_assoc, Bool.false_eq_true, if_false]

/-- Witness of the amended C11: the `string` field with no modifier. -/
theorem empty_chain_scalar_witness :
    (stringField []).type.IsScalar = true ∧ (stringField []).type.Modifiers = [] ∧
    WriteJson exampleEnv (stringField []) "r" =
      .ok ("r" ++ " = jsonw." ++ ucFirst exampleEnv (stringField []).type.GoType ++ "(res)") :=
  ⟨by decide, by decide, empty_chain_scalar exampleEnv (stringField []) "r" (by decide) (by decide)⟩

/-- C12. The chain `[OPTIONAL]` over a scalar: `WriteJson r` is one conditional and nothing
else; when `res == nil` it stores `jsonw.Null` in `r`, otherwise it stores
`jsonw.<ucFirst(GoType)>(*res)`; the converter derived from `int` is `Int`. -/
theorem optional_scalar (env : Env) (f : Field) (r : String)
    (hs : f.type.IsScalar = true) (hm : f.type.Modifiers = [env.modPtr]) :
    WriteJson env f r =
      .ok ("\n\t\t\tif res == nil \x7b\n\t\t\t\t" ++ r ++
        " = jsonw.Null\n\t\t\t\x7d else \x7b\n\t\t\t\t" ++
        (r ++ " = jsonw." ++ ucFirst env f.type.GoType ++ "(*res)") ++ "\n\t\t\t\x7d") ∧
    ucFirst env "int" = "Int" := by
  refine ⟨?_, rfl⟩
  have e1 : "(" ++ ("*" ++ "res") ++ ")" = "(*res)" := by decide
  have e2 : "\n\t\t\tif " ++ "res" ++ " == nil \x7b\n\t\t\t\t" =
      "\n\t\t\tif res == nil \x7b\n\t\t\t\t" := by decide
  have hnext : doWriteJson env f r "res" [] true (intAdd 1 1) =
      .ok (r ++ " = jsonw." ++ ucFirst env f.type.GoType ++ "(*res)") := by
    rw [doWriteJson_nil, if_pos hs, ← e1]
    simp only [scalarText, String.append_assoc, if_true]
  unfold WriteJson
  rw [hm, doWriteJson_modPtr env f r "res" [] false 1 _ hnext, ← e2]
  simp only [nilCheckText, String.append_assoc]

/-- Witness of C12: an `int` field with the chain `[OPTIONAL]`. -/
theorem optional_scalar_witness :
    (fieldOf ⟨["*"], true, "int", "Int"⟩).type.IsScalar = true ∧
    (fieldOf ⟨["*"], true, "int", "Int"⟩).type.Modifiers = [exampleEnv.modPtr] ∧
    (WriteJson exampleEnv (fieldOf ⟨["*"], true, "int", "Int"⟩) "r" =
      .ok ("\n\t\t\tif res == nil \x7b\n\t\t\t\t" ++ "r" ++
        " = jsonw.Null\n\t\t\t\x7d else \x7b\n\t\t\t\t" ++
        ("r" ++ " = jsonw." ++ ucFirst exampleEnv (fieldOf ⟨["*"], true, "int", "Int"⟩).type.GoType
          ++ "(*res)") ++ "\n\t\t\t\x7d") ∧
    ucFirst exampleEnv "int" = "Int") :=
  ⟨by decide, by decide,
    optional_scalar exampleEnv (fieldOf ⟨["*"], true, "int", "Int"⟩) "r" (by decide) (by decide)⟩

/-- C13. The chain `[LIST]` over a scalar: `WriteJson r` has no null check and is exactly one
loop over `res`; its body stores `jsonw.<ucFirst(GoType)>(res[idx1])` in `tmp1` and then
appends `tmp1` to `arr1`; after the loop `arr1` is stored in `r`. The converter derived from
`string` is `String`. -/
theorem list_scalar (env : Env) (f : Field) (r : String) (hne : env.modList ≠ env.modPtr)
    (hs : f.type.IsScalar = true) (hm : f.type.Modifiers = [env.modList]) :
    WriteJson env f r =
      .ok ("\n\t\t\tarr1 := jsonw.Array\x7b\x7d\n\t\t\tfor idx1 := range res \x7b" ++
        "\n\t\t\t\tvar tmp1 jsonw.Writer\n\t\t\t\t" ++
        ("tmp1 = jsonw." ++ ucFirst env f.type.GoType ++ "(res[idx1])") ++
        "\n\t\t\t\tarr1 = append(arr1, tmp1)\n\t\t\t\x7d\n\t\t\t" ++ r ++ " = arr1") ∧
    (∃ fr : Frag, WriteJson env f r = .ok fr.render ∧ fr.constructs = [Construct.forLoop] ∧
      fr.terminals = [Terminal.scalarConverter]) ∧
    ucFirst env "string" = "String" := by
  have h1 : Itoa 1 = "1" := by decide
  have hnext : doWriteJson env f ("tmp" ++ Itoa 1)
      ((if false then "*" ++ "res" else "res") ++ "[" ++ ("idx" ++ Itoa 1) ++ "]") [] false
      (intAdd 1 1) =
      .ok (scalarText ("tmp" ++ Itoa 1) (ucFirst env f.type.GoType)
        ("res" ++ "[" ++ ("idx" ++ Itoa 1) ++ "]")) := by
    rw [doWriteJson_nil, if_pos hs]
    rfl
  have hw : WriteJson env f r =
      .ok (loopText ("arr" ++ Itoa 1) ("idx" ++ Itoa 1) ("tmp" ++ Itoa 1) "res" r
        (scalarText ("tmp" ++ Itoa 1) (ucFirst env f.type.GoType)
          ("res" ++ "[" ++ ("idx" ++ Itoa 1) ++ "]"))) := by
    unfold WriteJson
    rw [hm]
    exact doWriteJson_modList env f r "res" env.modList [] false 1 _ hne rfl hnext
  refine ⟨?_, ⟨Frag.loop 1 "res" r (Frag.scalarCall ("tmp" ++ Itoa 1) (ucFirst env f.type.GoType)
    ("res" ++ "[" ++ ("idx" ++ Itoa 1) ++ "]")), hw, rfl, rfl⟩, rfl⟩
  rw [hw, h1]
  refine congrArg Except.ok (String.ext ?_)
  simp [loopText, scalarText, String.data_append]

/-- Witness of C13: the `string` field with the chain `[LIST]`. -/
theorem list_scalar_witness :
    exampleEnv.modList ≠ exampleEnv.modPtr ∧ (stringField ["[]"]).type.IsScalar = true ∧
    (stringField ["[]"]).type.Modifiers = [exampleEnv.modList] ∧
    (WriteJson exampleEnv (stringField ["[]"]) "r" =
      .ok ("\n\t\t\tarr1 := jsonw.Array\x7b\x7d\n\t\t\tfor idx1 := range res \x7b" ++
        "\n\t\t\t\tvar tmp1 jsonw.Writer\n\t\t\t\t" ++
        ("tmp1 = jsonw." ++ ucFirst exampleEnv (stringField ["[]"]).type.GoType ++
          "(res[idx1])") ++
        "\n\t\t\t\tarr1 = append(arr1, tmp1)\n\t\t\t\x7d\n\t\t\t" ++ "r" ++ " = arr1") ∧
    (∃ fr : Frag, WriteJson exampleEnv (stringField ["[]"]) "r" = .ok fr.render ∧
      fr.constructs = [Construct.forLoop] ∧ fr.terminals = [Terminal.scalarConverter]) ∧
    ucFirst exampleEnv "string" = "String") :=
  ⟨by decide, by decide, by decide,
    list_scalar exampleEnv (stringField ["[]"]) "r" (by decide) (by decide) (by decide)⟩

/-- The text of `WriteJson` for the chain `[OPTIONAL, LIST]` over a composite: a nil check on
`res` around one loop over `*res` whose body passes `&*res[idx2]` to the nested serializer. -/
theorem optional_list_composite_text (env : Env) (f : Field) (r : String)
    (hne : env.modList ≠ env.modPtr) (hs : f.type.IsScalar = false)
    (hm : f.type.Modifiers = [env.modPtr, env.modList]) :
    WriteJson env f r =
      .ok ("\n\t\t\tif res == nil \x7b\n\t\t\t\t" ++ r ++
        " = jsonw.Null\n\t\t\t\x7d else \x7b\n\t\t\t\t" ++
        ("\n\t\t\tarr2 := jsonw.Array\x7b\x7d\n\t\t\tfor idx2 := range *res \x7b" ++
          "\n\t\t\t\tvar tmp2 jsonw.Writer\n\t\t\t\t" ++
          ("tmp2 = ec._" ++ lcFirst env f.type.GQLType ++ "(field.Selections, &*res[idx2])") ++
          "\n\t\t\t\tarr2 = append(arr2, tmp2)\n\t\t\t\x7d\n\t\t\t" ++ r ++ " = arr2") ++
        "\n\t\t\t\x7d") ∧
    (∃ fr : Frag, WriteJson env f r = .ok fr.render ∧
      fr.constructs = [Construct.conditional, Construct.forLoop] ∧
      fr.terminals = [Terminal.nestedSerializer]) := by
  have h2 : Itoa (intAdd 1 1) = "2" := by decide
  have hnn : doWriteJson env f ("tmp" ++ Itoa (intAdd 1 1))
      ((if true then "*" ++ "res" else "res") ++ "[" ++ ("idx" ++ Itoa (intAdd 1 1)) ++ "]") []
      false (intAdd (intAdd 1 1) 1) =
      .ok (objectText ("tmp" ++ Itoa (intAdd 1 1)) (lcFirst env f.type.GQLType)
        ("&" ++ (("*" ++ "res") ++ "[" ++ ("idx" ++ Itoa (intAdd 1 1)) ++ "]"))) := by
    rw [doWriteJson_nil, hs]
    rfl
  have hn : doWriteJson env f r "res" [env.modList] true (intAdd 1 1) =
      .ok (loopText ("arr" ++ Itoa (intAdd 1 1)) ("idx" ++ Itoa (intAdd 1 1))
        ("tmp" ++ Itoa (intAdd 1 1)) ("*" ++ "res") r
        (objectText ("tmp" ++ Itoa (intAdd 1 1)) (lcFirst env f.type.GQLType)
          ("&" ++ (("*" ++ "res") ++ "[" ++ ("idx" ++ Itoa (intAdd 1 1)) ++ "]")))) :=
    doWriteJson_modList env f r "res" env.modList [] true (intAdd 1 1) _ hne rfl hnn
  have hw : WriteJson env f r =
      .ok (nilCheckText "res" r
        (loopText ("arr" ++ Itoa (intAdd 1 1)) ("idx" ++ Itoa (intAdd 1 1))
          ("tmp" ++ Itoa (intAdd 1 1)) ("*" ++ "res") r
          (objectText ("tmp" ++ Itoa (intAdd 1 1)) (lcFirst env f.type.GQLType)
            ("&" ++ (("*" ++ "res") ++ "[" ++ ("idx" ++ Itoa (intAdd 1 1)) ++ "]"))))) := by
    unfold WriteJson
    rw [hm]
    exact doWriteJson_modPtr env f r "res" [env.modList] false 1 _ hn
  refine ⟨?_, ⟨Frag.nilCheck "res" r (Frag.loop (intAdd 1 1) ("*" ++ "res") r
    (Frag.objectCall ("tmp" ++ Itoa (intAdd 1 1)) (lcFirst env f.type.GQLType)
      ("&" ++ (("*" ++ "res") ++ "[" ++ ("idx" ++ Itoa (intAdd 1 1)) ++ "]")))), hw, rfl, rfl⟩⟩
  rw [hw, h2]
  refine congrArg Except.ok (String.ext ?_)
  set_option maxRecDepth 10000 in
  simp [nilCheckText, loopText, objectText, String.data_append]

/-- C14, on the code. For the `User` field with the chain `[OPTIONAL, LIST]`, `WriteJson r`
is the nil check on `res` around one loop over `*res` with `arr2`, `idx2` and `tmp2`, but the
argument of the nested serializer is written `&*res[idx2]`: the star is put in front of `res`
and the index behind it, with no parentheses around `*res`. The fragment is not the one whose
call takes `&(*res)[idx2]`, the address of the element of the dereferenced list. -/
theorem optional_list_composite_unparenthesised :
    WriteJson exampleEnv (userField ["*", "[]"]) "r" =
      .ok (nilCheckText "res" "r"
        (loopText "arr2" "idx2" "tmp2" "*res" "r"
          "tmp2 = ec._user(field.Selections, &*res[idx2])")) ∧
    WriteJson exampleEnv (userField ["*", "[]"]) "r" ≠
      .ok (nilCheckText "res" "r"
        (loopText "arr2" "idx2" "tmp2" "*res" "r"
          "tmp2 = ec._user(field.Selections, &(*res)[idx2])")) := by
  have h : WriteJson exampleEnv (userField ["*", "[]"]) "r" =
      .ok (nilCheckText "res" "r"
        (loopText "arr2" "idx2" "tmp2" "*res" "r"
          "tmp2 = ec._user(field.Selections, &*res[idx2])")) := by
    set_option maxRecDepth 10000 in
    rfl
  refine ⟨h, ?_⟩
  rw [h]
  intro hn
  have h2 := congrArg String.data (Except.ok.inj hn)
  set_option maxRecDepth 10000 in
  simp [nilCheckText, loopText, String.data_append] at h2

/-! ## Non-interference -/

theorem doWriteJson_congr (env : Env) (f1 f2 : Field) (ht : f1.type = f2.type)
    (mods : List String) :
    ∀ (res val : String) (b : Bool) (d : Int),
      doWriteJson env f1 res val mods b d = doWriteJson env f2 res val mods b d := by
  induction mods with
  | nil =>
    intro res val b d
    rw [doWriteJson_nil, doWriteJson_nil, ht]
  | cons m rest ih =>
    intro res val b d
    rw [doWriteJson, doWriteJson]
    simp only [ih, ht]

/-- C15. Purity and non-interference: `WriteJson` is a function of the type descriptor and
the result name only: two fields that agree on `Modifiers`, `IsScalar`, `GoType` and
`GQLType` give the same fragment for every result name, whatever their `GQLName`,
`GoMethodName`, `GoVarName`, `Args`, `NoErr` and owning object are. -/
theorem writeJson_depends_on_type_only (env : Env) (f1 f2 : Field) (r : String)
    (hm : f1.type.Modifiers = f2.type.Modifiers) (hs : f1.type.IsScalar = f2.type.IsScalar)
    (hg : f1.type.GoType = f2.type.GoType) (hq : f1.type.GQLType = f2.type.GQLType) :
    WriteJson env f1 r = WriteJson env f2 r := by
  have ht : f1.type = f2.type := by
    cases h1 : f1.type
    cases h2 : f2.type
    rw [h1, h2] at hm hs hg hq
    simp only at hm hs hg hq
    rw [hm, hs, hg, hq]
  unfold WriteJson
  rw [doWriteJson_congr env f1 f2 ht, ht]

/-- Witness of C15: two fields of type optional `string` that differ in every other
attribute. -/
theorem writeJson_depends_on_type_only_witness :
    (stringField ["*"]).type.Modifiers = boundStringField.type.Modifiers ∧
    (stringField ["*"]).type.IsScalar = boundStringField.type.IsScalar ∧
    (stringField ["*"]).type.GoType = boundStringField.type.GoType ∧
    (stringField ["*"]).type.GQLType = boundStringField.type.GQLType ∧
    stringField ["*"] ≠ boundStringField ∧
    WriteJson exampleEnv (stringField ["*"]) "r" = WriteJson exampleEnv boundStringField "r" :=
  ⟨by decide, by decide, by decide, by decide, by decide,
    writeJson_depends_on_type_only exampleEnv (stringField ["*"]) boundStringField "r"
      (by decide) (by decide) (by decide) (by decide)⟩

/-! ## Unrecognised tags -/

/-- C18. Unrecognised modifier tag: when the head of a non-empty modifier list is neither
`modPtr` nor `modList`, `doWriteJson` does not fail and returns what it returns for the
empty list: the head and every modifier after it are ignored and the terminal assignment is
emitted directly. -/
theorem unrecognised_tag_ignored (env : Env) (f : Field) (res val m : String)
    (rest : List String) (b : Bool) (d : Int) (hp : m ≠ env.modPtr) (hl : m ≠ env.modList) :
    doWriteJson env f res val (m :: rest) b d = doWriteJson env f res val [] b d ∧
    (∃ s, doWriteJson env f res val (m :: rest) b d = .ok s) ∧
    doWriteJson env f res val (m :: rest) b d =
      (if f.type.IsScalar then
        .ok (res ++ " = jsonw." ++ ucFirst env f.type.GoType ++ "(" ++
          (if b then "*" ++ val else val) ++ ")")
      else
        .ok (res ++ " = ec._" ++ lcFirst env f.type.GQLType ++ "(field.Selections, " ++
          (if b then val else "&" ++ val) ++ ")")) := by
  refine ⟨doWriteJson_other env f res val m rest b d hp hl,
    doWriteJson_ok env f (m :: rest) res val b d, ?_⟩
  rw [doWriteJson_other env f res val m rest b d hp hl, doWriteJson_nil]
  rfl

/-- Witness of C18: the chain `[!, OPTIONAL, LIST]` of a `string` field. -/
theorem unrecognised_tag_ignored_witness :
    "!" ≠ exampleEnv.modPtr ∧ "!" ≠ exampleEnv.modList ∧
    (doWriteJson exampleEnv (stringField ["!", "*", "[]"]) "r" "res" ("!" :: ["*", "[]"]) false 1 =
      doWriteJson exampleEnv (stringField ["!", "*", "[]"]) "r" "res" [] false 1 ∧
    (∃ s, doWriteJson exampleEnv (stringField ["!", "*", "[]"]) "r" "res" ("!" :: ["*", "[]"])
      false 1 = .ok s) ∧
    doWriteJson exampleEnv (stringField ["!", "*", "[]"]) "r" "res" ("!" :: ["*", "[]"]) false 1 =
      (if (stringField ["!", "*", "[]"]).type.IsScalar then
        .ok ("r" ++ " = jsonw." ++ ucFirst exampleEnv (stringField ["!", "*", "[]"]).type.GoType ++
          "(" ++ (if false then "*" ++ "res" else "res") ++ ")")
      else
        .ok ("r" ++ " = ec._" ++ lcFirst exampleEnv (stringField ["!", "*", "[]"]).type.GQLType ++
          "(field.Selections, " ++ (if false then "res" else "&" ++ "res") ++ ")"))) :=
  ⟨by decide, by decide,
    unrecognised_tag_ignored exampleEnv (stringField ["!", "*", "[]"]) "r" "res" "!" ["*", "[]"]
      false 1 (by decide) (by decide)⟩

/-! ## The first match of a lookup -/

theorem getFieldLoop_none (equalFold : String → String → Bool) (name : String)
    (l : List Field) :
    ∀ k : Nat, getFieldLoop equalFold name l k = none ↔
      ∀ f ∈ l, equalFold f.GQLName name = false := by
  induction l with
  | nil => intro k; simp [getFieldLoop]
  | cons x xs ih =>
    intro k
    rw [getFieldLoop]
    by_cases hx : equalFold x.GQLName name = true
    · simp [hx]
    · simp [hx, ih (k + 1)]

theorem getFieldLoop_some (equalFold : String → String → Bool) (name : String)
    (l : List Field) :
    ∀ k i : Nat, getFieldLoop equalFold name l k = some i ↔
      ∃ n f, i = k + n ∧ l[n]? = some f ∧ equalFold f.GQLName name = true ∧
        ∀ j, j < n → ∀ g, l[j]? = some g → equalFold g.GQLName name = false := by
  induction l with
  | nil => intro k i; simp [getFieldLoop]
  | cons x xs ih =>
    intro k i
    rw [getFieldLoop]
    by_cases hx : equalFold x.GQLName name = true
    · rw [if_pos hx]
      constructor
      · intro h
        have hi : k = i := Option.some.inj h
        refine ⟨0, x, by omega, by simp, hx, ?_⟩
        intro j hj
        omega
      · rintro ⟨n, f, hi, hn, hf, hmin⟩
        cases n with
        | zero => simp [hi]
        | succ n =>
          have := hmin 0 (by omega) x (by simp)
          rw [hx] at this
          cases this
    · rw [if_neg hx, ih (k + 1) i]
      have hxf : equalFold x.GQLName name = false := by simpa using hx
      constructor
      · rintro ⟨n, f, hi, hn, hf, hmin⟩
        refine ⟨n + 1, f, by omega, by simpa using hn, hf, ?_⟩
        intro j hj g hg
        cases j with
        | zero =>
          simp at hg
          rw [← hg]
          exact hxf
        | succ j => exact hmin j (by omega) g (by simpa using hg)
      · rintro ⟨n, f, hi, hn, hf, hmin⟩
        cases n with
        | zero =>
          simp at hn
          rw [hn] at hxf
          rw [hxf] at hf
          cases hf
        | succ n =>
          refine ⟨n, f, by omega, by simpa using hn, hf, ?_⟩
          intro j hj g hg
          exact hmin (j + 1) (by omega) g (by simpa using hg)

/-- C19. Lookup by `GetField`: it returns nil exactly when no field of the object has a
`GQLName` that `strings.EqualFold` equates with the name; otherwise it returns the field at
the smallest index whose `GQLName` matches, the first match in declaration order. -/
theorem getField_first_match (equalFold : String → String → Bool) (o : Object)
    (name : String) :
    (GetField equalFold o name = none ↔
      ∀ f ∈ o.Fields, equalFold f.GQLName name = false) ∧
    (∀ i : Nat, GetField equalFold o name = some i ↔
      ∃ f, o.Fields[i]? = some f ∧ equalFold f.GQLName name = true ∧
        ∀ j, j < i → ∀ g, o.Fields[j]? = some g → equalFold g.GQLName name = false) := by
  refine ⟨getFieldLoop_none equalFold name o.Fields 0, ?_⟩
  intro i
  unfold GetField
  rw [getFieldLoop_some equalFold name o.Fields 0 i]
  constructor
  · rintro ⟨n, f, hi, hn, hf, hmin⟩
    have hin : i = n := by omega
    subst hin
    exact ⟨f, hn, hf, hmin⟩
  · rintro ⟨f, hn, hf, hmin⟩
    exact ⟨i, f, by omega, hn, hf, hmin⟩

theorem getField_exampleObject :
    GetField asciiEqualFold exampleObject "NAME" = some 1 ∧
    GetField asciiEqualFold exampleObject "nam" = none := by
  decide

/-! ## Template rendering -/

theorem scan_text (cs : List Char) :
    ∀ (acc rest : List Char), (∀ c ∈ cs, c ≠ lbrace) →
      scan (cs ++ rest) (.inText acc) = scan rest (.inText (cs.reverse ++ acc)) := by
  induction cs with
  | nil => intro acc rest _; rfl
  | cons c cs ih =>
    intro acc rest h
    have hc : c ≠ lbrace := h c (List.mem_cons_self _ _)
    rw [List.cons_append, scan, if_neg hc, ih _ _ (fun x hx => h x (List.mem_cons_of_mem _ hx))]
    simp

theorem scan_action (cs : List Char) :
    ∀ (acc rest : List Char), (∀ c ∈ cs, c ≠ rbrace) →
      scan (cs ++ rest) (.inAction acc) = scan rest (.inAction (cs.reverse ++ acc)) := by
  induction cs with
  | nil => intro acc rest _; rfl
  | cons c cs ih =>
    intro acc rest h
    have hc : c ≠ rbrace := h c (List.mem_cons_self _ _)
    rw [List.cons_append, scan, if_neg hc, ih _ _ (fun x hx => h x (List.mem_cons_of_mem _ hx))]
    simp

theorem isIdentChar_ne_rbrace (c : Char) (h : isIdentChar c = true) : c ≠ rbrace := by
  intro e
  rw [e] at h
  revert h
  decide

theorem parse_single_reference (pre name post : List Char)
    (hpre : ∀ c ∈ pre, c ≠ lbrace) (hpost : ∀ c ∈ post, c ≠ lbrace)
    (hid : ∀ c ∈ name, isIdentChar c = true)
    (hfield : actionField (Char.ofNat 46 :: name) = some name) :
    scan (pre ++ (lbrace :: lbrace :: ((Char.ofNat 46 :: name) ++ (rbrace :: rbrace :: post))))
      (.inText []) = .ok [Node.text pre, Node.field name, Node.text post] := by
  have hdot : ∀ c ∈ Char.ofNat 46 :: name, c ≠ rbrace := by
    intro c hc
    rcases List.mem_cons.mp hc with h | h
    · rw [h]; decide
    · exact isIdentChar_ne_rbrace c (hid c h)
  have hpost2 : scan post (.inText []) = .ok [Node.text post] := by
    have := scan_text post [] [] hpost
    rw [List.append_nil] at this
    rw [this]
    simp [scan]
  have hact : scan ((Char.ofNat 46 :: name) ++ (rbrace :: rbrace :: post)) (.inAction []) =
      .ok [Node.field name, Node.text post] := by
    have := scan_action (Char.ofNat 46 :: name) [] (rbrace :: rbrace :: post) hdot
    rw [this, scan, if_pos rfl, scan, if_pos rfl]
    simp only [List.append_nil, List.reverse_reverse]
    rw [hfield, hpost2]
  rw [scan_text pre [] _ hpre, scan, if_pos rfl, scan, if_pos rfl, hact]
  simp

/-- C16 fails as stated: a template that references the name `x` is rendered on a mapping
without the key `x`, and `tpl` returns text in which the placeholder `<no value>` stands for
the reference; the nil-check template without the key `next` is rendered likewise. -/
theorem tpl_missing_name_counterexample :
    tpl "\x7b\x7b.x\x7d\x7d" [] = .ok "<no value>" ∧
    tpl ptrTemplate [("res", "r"), ("val", "v")] =
      .ok (nilCheckText "v" "r" "<no value>") := by
  constructor <;> rfl

/-- C16, amended. Template rendering does not fail on a missing name: if the template
references a name `{{.x}}` that is not a key of vars, `tpl` returns a string in which the
placeholder `<no value>` stands for the reference (for text `pre` and `post` without a left
brace, `tpl(pre + "{{.x}}" + post, vars)` is `pre + "<no value>" + post`); whether `tpl`
fails depends on the template text alone, not on vars. -/
theorem tpl_missing_name_placeholder (pre name post : String) (vars : List (String × String))
    (hpre : ∀ c ∈ pre.data, c ≠ lbrace) (hpost : ∀ c ∈ post.data, c ≠ lbrace)
    (hne : name.data ≠ []) (hid : ∀ c ∈ name.data, isIdentChar c = true)
    (hdigit : ∀ c, name.data.head? = some c → ¬ (48 ≤ c.toNat ∧ c.toNat ≤ 57))
    (hmiss : vars.lookup name = none) :
    tpl (pre ++ "\x7b\x7b." ++ name ++ "\x7d\x7d" ++ post) vars =
      .ok (pre ++ "<no value>" ++ post) ∧
    (∀ (t : String) (vars1 vars2 : List (String × String)) (e : TplFailure),
      tpl t vars1 = .error e → tpl t vars2 = .error e) := by
  constructor
  · have hfield : actionField (Char.ofNat 46 :: name.data) = some name.data := by
      cases hn : name.data with
      | nil => exact absurd hn hne
      | cons c cs =>
        rw [hn] at hdigit hid
        have h1 := hdigit c rfl
        have h2 : (c :: cs).all isIdentChar = true := by
          rw [List.all_eq_true]
          exact hid
        unfold actionField
        simp only []
        rw [if_pos ⟨by decide, h1, h2⟩]
    have hdata : (pre ++ "\x7b\x7b." ++ name ++ "\x7d\x7d" ++ post).data =
        pre.data ++ (lbrace :: lbrace :: ((Char.ofNat 46 :: name.data) ++
          (rbrace :: rbrace :: post.data))) := by
      simp only [String.data_append, List.append_assoc]
      rfl
    unfold tpl parseTemplate
    rw [hdata, parse_single_reference pre.data name.data post.data hpre hpost hid hfield]
    simp only [execNodes, execNode, hmiss, String.append_empty, String.append_assoc]
  · intro t vars1 vars2 e h
    unfold tpl at h ⊢
    cases hp : parseTemplate t with
    | ok nodes => rw [hp] at h; cases h
    | error e2 => rw [hp] at h; exact h

/-- Witness of the amended C16: the template `a = {{.x}};` on a mapping with the key `y`
only. -/
theorem tpl_missing_name_placeholder_witness :
    (∀ c ∈ "a = ".data, c ≠ lbrace) ∧ (∀ c ∈ ";".data, c ≠ lbrace) ∧ "x".data ≠ [] ∧
    (∀ c ∈ "x".data, isIdentChar c = true) ∧
    (∀ c, "x".data.head? = some c → ¬ (48 ≤ c.toNat ∧ c.toNat ≤ 57)) ∧
    [("y", "1")].lookup "x" = none ∧
    (tpl ("a = " ++ "\x7b\x7b." ++ "x" ++ "\x7d\x7d" ++ ";") [("y", "1")] =
      .ok ("a = " ++ "<no value>" ++ ";") ∧
    (∀ (t : String) (vars1 vars2 : List (String × String)) (e : TplFailure),
      tpl t vars1 = .error e → tpl t vars2 = .error e)) :=
  ⟨by decide, by decide, by decide, by decide, by intro c h; cases h; decide, by decide,
    tpl_missing_name_placeholder "a = " "x" ";" [("y", "1")] (by decide)
      (by decide) (by decide) (by decide) (by intro c h; cases h; decide) (by decide)⟩

/-! ## Casing -/

theorem toNat_ofNat_ascii (n : Nat) (h : n < 128) : (Char.ofNat n).toNat = n := by
  have key : ∀ k : Fin 128, (Char.ofNat k.val).toNat = k.val := by decide
  exact key ⟨n, h⟩

theorem unicodeToUpper_idem (env : Env)
    (htable : ∀ c : Char, 127 < c.toNat →
      unicodeToUpper env (env.upperTable c) = env.upperTable c) (c : Char) :
    unicodeToUpper env (unicodeToUpper env c) = unicodeToUpper env c := by
  by_cases h : c.toNat ≤ 127
  · by_cases h2 : 97 ≤ c.toNat ∧ c.toNat ≤ 122
    · have hv : unicodeToUpper env c = Char.ofNat (c.toNat - 32) := by
        simp only [unicodeToUpper, if_pos h, if_pos h2]
      have hn : (Char.ofNat (c.toNat - 32)).toNat = c.toNat - 32 :=
        toNat_ofNat_ascii _ (by omega)
      rw [hv]
      unfold unicodeToUpper
      rw [hn, if_pos (by omega), if_neg (by omega)]
    · have hv : unicodeToUpper env c = c := by
        simp only [unicodeToUpper, if_pos h, if_neg h2]
      rw [hv, hv]
  · have hv : unicodeToUpper env c = env.upperTable c := by
      simp only [unicodeToUpper, if_neg h]
    rw [hv]
    exact htable c (by omega)

theorem unicodeToLower_idem (env : Env)
    (htable : ∀ c : Char, 127 < c.toNat →
      unicodeToLower env (env.lowerTable c) = env.lowerTable c) (c : Char) :
    unicodeToLower env (unicodeToLower env c) = unicodeToLower env c := by
  by_cases h : c.toNat ≤ 127
  · by_cases h2 : 65 ≤ c.toNat ∧ c.toNat ≤ 90
    · have hv : unicodeToLower env c = Char.ofNat (c.toNat + 32) := by
        simp only [unicodeToLower, if_pos h, if_pos h2]
      have hn : (Char.ofNat (c.toNat + 32)).toNat = c.toNat + 32 :=
        toNat_ofNat_ascii _ (by omega)
      rw [hv]
      unfold unicodeToLower
      rw [hn, if_pos (by omega), if_neg (by omega)]
    · have hv : unicodeToLower env c = c := by
        simp only [unicodeToLower, if_pos h, if_neg h2]
      rw [hv, hv]
  · have hv : unicodeToLower env c = env.lowerTable c := by
      simp only [unicodeToLower, if_neg h]
    rw [hv]
    exact htable c (by omega)

theorem mk_cons_ne_empty (c : Char) (cs : List Char) : String.mk (c :: cs) ≠ "" := by
  intro h
  have := congrArg String.data h
  simp at this

theorem ucFirst_cons (env : Env) (c : Char) (cs : List Char) :
    ucFirst env (String.mk (c :: cs)) = String.mk (unicodeToUpper env c :: cs) := by
  unfold ucFirst
  rw [if_neg (mk_cons_ne_empty c cs)]

theorem lcFirst_cons (env : Env) (c : Char) (cs : List Char) :
    lcFirst env (String.mk (c :: cs)) = String.mk (unicodeToLower env c :: cs) := by
  unfold lcFirst
  rw [if_neg (mk_cons_ne_empty c cs)]

/-- C17. Casing transform: `ucFirst` and `lcFirst` map the empty string to itself; on a
non-empty string they return a string of the same length whose first character is the
upper-case (lower-case) mapping of the first character and whose other characters are
unchanged; the nested-serializer assignment of a composite field depends on the field only
through `GQLType`, the converter assignment of a scalar field only through `GoType`; and both
transforms are idempotent, given that the case tables above ASCII map every character to a
fixed point of the mapping. -/
theorem casing_transform (env : Env) :
    ucFirst env "" = "" ∧ lcFirst env "" = "" ∧
    (∀ (c : Char) (cs : List Char),
      ucFirst env (String.mk (c :: cs)) = String.mk (unicodeToUpper env c :: cs) ∧
      lcFirst env (String.mk (c :: cs)) = String.mk (unicodeToLower env c :: cs)) ∧
    (∀ s : String, (ucFirst env s).length = s.length ∧ (lcFirst env s).length = s.length) ∧
    (∀ (f1 f2 : Field) (res val : String) (b : Bool) (d : Int),
      f1.type.IsScalar = false → f2.type.IsScalar = false →
      f1.type.GQLType = f2.type.GQLType →
      doWriteJson env f1 res val [] b d = doWriteJson env f2 res val [] b d) ∧
    (∀ (f1 f2 : Field) (res val : String) (b : Bool) (d : Int),
      f1.type.IsScalar = true → f2.type.IsScalar = true →
      f1.type.GoType = f2.type.GoType →
      doWriteJson env f1 res val [] b d = doWriteJson env f2 res val [] b d) ∧
    ((∀ c : Char, 127 < c.toNat → unicodeToUpper env (env.upperTable c) = env.upperTable c) →
      ∀ s : String, ucFirst env (ucFirst env s) = ucFirst env s) ∧
    ((∀ c : Char, 127 < c.toNat → unicodeToLower env (env.lowerTable c) = env.lowerTable c) →
      ∀ s : String, lcFirst env (lcFirst env s) = lcFirst env s) := by
  refine ⟨rfl, rfl, fun c cs => ⟨ucFirst_cons env c cs, lcFirst_cons env c cs⟩, ?_, ?_, ?_, ?_,
    ?_⟩
  · intro s
    obtain ⟨l⟩ := s
    cases l with
    | nil => exact ⟨rfl, rfl⟩
    | cons c cs =>
      rw [ucFirst_cons, lcFirst_cons]
      exact ⟨rfl, rfl⟩
  · intro f1 f2 res val b d h1 h2 hq
    rw [doWriteJson_nil, doWriteJson_nil, h1, h2, hq]
    simp only [Bool.false_eq_true, if_false]
  · intro f1 f2 res val b d h1 h2 hg
    rw [doWriteJson_nil, doWriteJson_nil, h1, h2, hg]
    simp only [if_true]
  · intro htable s
    obtain ⟨l⟩ := s
    cases l with
    | nil => rfl
    | cons c cs => rw [ucFirst_cons, ucFirst_cons, unicodeToUpper_idem env htable]
  · intro htable s
    obtain ⟨l⟩ := s
    cases l with
    | nil => rfl
    | cons c cs => rw [lcFirst_cons, lcFirst_cons, unicodeToLower_idem env htable]

/-- Witness of C17: with identity tables above ASCII, `ucFirst` is idempotent on `string`
and `lcFirst` on `User`. -/
theorem casing_transform_witness :
    (∀ c : Char, 127 < c.toNat →
      unicodeToUpper exampleEnv (exampleEnv.upperTable c) = exampleEnv.upperTable c) ∧
    (∀ c : Char, 127 < c.toNat →
      unicodeToLower exampleEnv (exampleEnv.lowerTable c) = exampleEnv.lowerTable c) ∧
    ucFirst exampleEnv (ucFirst exampleEnv "string") = ucFirst exampleEnv "string" ∧
    lcFirst exampleEnv (lcFirst exampleEnv "User") = lcFirst exampleEnv "User" ∧
    ucFirst exampleEnv "string" = "String" ∧ lcFirst exampleEnv "User" = "user" :=
  have hu : ∀ c : Char, 127 < c.toNat →
      unicodeToUpper exampleEnv (exampleEnv.upperTable c) = exampleEnv.upperTable c := by
    intro c hc
    simp only [unicodeToUpper, exampleEnv, id]
    rw [if_neg (by omega)]
  have hl : ∀ c : Char, 127 < c.toNat →
      unicodeToLower exampleEnv (exampleEnv.lowerTable c) = exampleEnv.lowerTable c := by
    intro c hc
    simp only [unicodeToLower, exampleEnv, id]
    rw [if_neg (by omega)]
  ⟨hu, hl, (casing_transform exampleEnv).2.2.2.2.2.2.1 hu "string",
    (casing_transform exampleEnv).2.2.2.2.2.2.2 hl "User", by decide, by decide⟩

end Codegen
